import Mathlib

/-!
Verification of the Statement Normalization & Cumulative Aggregation Engine
of the xls-converter repository (src/server.js, first/current version of the
`/api/statement/parse` pipeline, and src/utils/cumulative.js).

Modelling conventions (shallow embedding):
* Monetary values and Excel serial numbers are exact rationals (ℚ).  JS
  floating point is abstracted to exact arithmetic; both `Number(x.toFixed(2))`
  and `Math.round((n + Number.EPSILON) * 100) / 100` are modelled as rounding
  to the nearest multiple of 1/100, half up (the ECMA tie rule picks the
  larger candidate for `toFixed`, `Math.round` rounds half toward +∞).
* Instants are integer milliseconds since the Unix epoch.  Every instant the
  pipeline passes around is serialized by luxon `toISO()` (millisecond
  precision) and later re-parsed, so integer milliseconds are exact; the one
  place fractional milliseconds can arise (a fractional Excel serial) is
  floored at serialization.
* The configured zone `Asia/Bishkek` is a fixed UTC+06:00 offset zone (no
  DST since 2005); a timezone is represented by its offset in minutes.  The
  Node host's local timezone (used by the JS `Date` accessors inside `ymd`)
  is likewise modelled as a fixed offset `hostOff` in minutes.
* Calendar days are represented by their day number (days since 1970-01-01);
  rendering a day number as a `YYYY-MM-DD` string is a strictly monotone
  bijection in the relevant range, so string comparison/sorting of dates in
  the source corresponds to integer comparison of day numbers.
* The free-form date fallback `new Date(s)` of `buildTsISO` is host- and
  engine-dependent; it is passed in as an explicit function parameter
  `fallback` and never relied upon by any theorem.
-/

namespace XlsConv

/-! ## Rounding (JS `toFixed(2)` / `Math.round(x*100)/100` on exact rationals) -/

/-- Round to 2 decimal places, half up: the model of both
`Number(x.toFixed(2))` (server.js) and `round2` (utils/cumulative.js). -/
def round2 (q : ℚ) : ℚ := ((⌊q * 100 + 1/2⌋ : ℤ) : ℚ) / 100

/-- JS `Math.round`: round to the nearest integer, half toward +∞. -/
def jsRound (q : ℚ) : ℤ := ⌊q + 1/2⌋

/-! ## Civil calendar (Howard Hinnant's `days_from_civil`), leap years -/

def isLeap (y : ℤ) : Bool := (y % 4 == 0 && y % 100 != 0) || (y % 400 == 0)

def daysInMonth (y m : ℤ) : ℤ :=
  if m = 2 then (if isLeap y then 29 else 28)
  else if m = 4 ∨ m = 6 ∨ m = 9 ∨ m = 11 then 30
  else 31

/-- Day number (days since 1970-01-01) of a civil date.  Divisions are
mathematical floor divisions (all divisors are positive, so `Int.ediv`,
written `/`, is floor division, matching JS `Math.floor(a/b)`). -/
def civilToDays (y m d : ℤ) : ℤ :=
  let y' := if m ≤ 2 then y - 1 else y
  let era := y' / 400
  let yoe := y' - era * 400
  let mp := (m + 9) % 12
  let doy := (153 * mp + 2) / 5 + d - 1
  let doe := yoe * 365 + yoe / 4 - yoe / 100 + doy
  era * 146097 + doe - 719468

def msPerDay : ℤ := 86400000

/-- Civil day of an instant, in the fixed-offset zone `off` (minutes). -/
def zoneDay (ms off : ℤ) : ℤ := (ms + off * 60000) / msPerDay

/-- Time of day (in ms) of an instant, in the fixed-offset zone `off`. -/
def zoneTod (ms off : ℤ) : ℤ := (ms + off * 60000) % msPerDay

/-- Instant of a given civil day / time-of-day in the fixed-offset zone. -/
def mkMs (day todMs off : ℤ) : ℤ := day * msPerDay + todMs - off * 60000

/-! ## Cells and strings

A spreadsheet cell, as produced by `sheet_to_json` with `cellDates: true`
and `defval: ''`: a native `Date` (a valid instant, integer milliseconds),
a JS number, or a string.  A missing column (`pick` returning `undefined`)
is `Option.none` one level up. -/

inductive Cell where
  | str (s : String)
  | num (q : ℚ)
  | date (ms : ℤ)
  deriving Repr, DecidableEq

/-- JS `toLowerCase` restricted to the alphabets appearing in the header
synonym lists (ASCII and Russian Cyrillic). -/
def jsLowerChar (c : Char) : Char :=
  if 'A' ≤ c ∧ c ≤ 'Z' then Char.ofNat (c.toNat + 32)
  else if 'А' ≤ c ∧ c ≤ 'Я' then Char.ofNat (c.toNat + 32)
  else if c = 'Ё' then 'ё'
  else c

def jsLower (s : String) : String := String.mk (s.data.map jsLowerChar)

/-- JS `String.prototype.trim()`: strip leading and trailing whitespace
(structural model of `String.trim`). -/
def jsTrim (s : String) : String :=
  String.mk (((s.data.dropWhile Char.isWhitespace).reverse.dropWhile Char.isWhitespace).reverse)

/-- JS `String.prototype.replace(/\s/g, '')`: drop all whitespace. -/
def stripWs (s : String) : String := String.mk (s.data.filter (fun c => !c.isWhitespace))

/-- Shape dispatch for `endsCommaDec`, on the reversed character list. -/
def endsCommaDecAux : List Char → Bool
  | c1 :: c2 :: c3 :: _ =>
      if c2 = ',' then c1.isDigit else (c3 = ',' && c1.isDigit && c2.isDigit)
  | [c1, c2] => if c2 = ',' then c1.isDigit else false
  | _ => false

/-- The test `/,\d{1,2}$/.test(s)`: the string ends in a comma followed by
exactly one or two digits (the comma is either the second- or the
third-to-last character, with digits after it). -/
def endsCommaDec (s : String) : Bool := endsCommaDecAux s.data.reverse

/-- JS `s.replace(/\./g, '')`: drop all dots. -/
def removeDots (s : String) : String := String.mk (s.data.filter (fun c => c ≠ '.'))

/-- JS `s.replace(',', '.')` replaces only the FIRST comma. -/
def replaceFirstCommaAux : List Char → List Char
  | [] => []
  | c :: rest => if c = ',' then '.' :: rest else c :: replaceFirstCommaAux rest

def replaceFirstComma (s : String) : String := String.mk (replaceFirstCommaAux s.data)

/-- Replacing the LAST comma with a dot (the transformation the spec
describes); compared against the source's first-comma replacement. -/
def replaceLastComma (s : String) : String :=
  String.mk (replaceFirstCommaAux s.data.reverse).reverse

/-! ## JS `Number(string)` on decimal literals

Model of `Number(s)` for the strings this pipeline feeds it: an optional
sign followed by a decimal literal (`123`, `123.45`, `123.`, `.45`).
`none` models `NaN`.  Hexadecimal, exponent and `Infinity` forms are not
modelled (no amount cell uses them, and no theorem depends on them); what
the theorems do rely on is that a string containing a comma is `NaN`,
which is true of JS `Number`. -/

def digitsToNat (cs : List Char) : ℕ :=
  cs.foldl (fun n c => n * 10 + (c.toNat - 48)) 0

def jsNumTail (intPart : List Char) : List Char → Option ℚ
  | [] => if intPart.isEmpty then none else some ((digitsToNat intPart : ℚ))
  | c :: frac =>
      if c = '.' then
        if frac.all Char.isDigit && !(intPart.isEmpty && frac.isEmpty) then
          some ((digitsToNat intPart : ℚ) + (digitsToNat frac : ℚ) / (10 ^ frac.length))
        else none
      else none

def jsNumUnsigned (cs : List Char) : Option ℚ :=
  jsNumTail (cs.takeWhile Char.isDigit) (cs.dropWhile Char.isDigit)

def jsNumberAux : List Char → Option ℚ
  | [] => some 0
  | c :: rest =>
      if c = '-' then (jsNumUnsigned rest).map (fun q => -q)
      else if c = '+' then jsNumUnsigned rest
      else jsNumUnsigned (c :: rest)

def jsNumber (s : String) : Option ℚ := jsNumberAux s.data

/-! ## Amount Parser (`parseKgsNumber`, server.js lines 73-81) -/

/-- `parseKgsNumber` on a string cell: trim, `NaN` on empty, strip internal
whitespace, then the comma-decimal test chooses the transformation. -/
def parseKgsString (v : String) : Option ℚ :=
  if jsTrim v = "" then none
  else if endsCommaDec (stripWs (jsTrim v)) then
    jsNumber (replaceFirstComma (removeDots (stripWs (jsTrim v))))
  else jsNumber (stripWs (jsTrim v))

/-- `parseKgsNumber(val)`.  A number cell takes the string path through
`String(val)`; a finite JS number's string rendering contains no whitespace
and no comma and re-parses by `Number` to the same value, so that path is
the identity.  Any other value (`undefined`, a `Date`, ...) is `NaN`. -/
def parseKgsNumber : Option Cell → Option ℚ
  | some (Cell.str v) => parseKgsString v
  | some (Cell.num q) => some q
  | _ => none

/-! ## Column Resolver (`COLS` / `pick`, server.js lines 114-138) -/

/-- A raw row: ordered header → cell mapping. -/
abbrev Row := List (String × Cell)

def normHeader (h : String) : String := jsTrim (jsLower h)

/-- `pick(row, keys)`: the lookup map is built with
`Object.fromEntries(Object.keys(row).map(k => [k.toLowerCase().trim(), k]))`,
so a later header with the same normalized name overwrites an earlier one
(hence `row.reverse.find?`); candidate keys are tried in order, lowercased
but not trimmed. -/
def pick (r : Row) (keys : List String) : Option Cell :=
  keys.findSome? (fun k =>
    (r.reverse.find? (fun p => normHeader p.1 = jsLower k)).map Prod.snd)

def colsDate : List String :=
  ["Дата", "Дата операции", "Operation date", "Posting date", "Дата проводки", "Date"]

def colsDesc : List String :=
  ["Operation", "Recipient/Payer",
   "Описание", "Описание операции", "Description", "Назначение платежа", "Назначение"]

/-- MBank: the `Debit` column is an INFLOW (приход). -/
def colsDebitIsIncome : List String := ["Debit", "Поступление", "Кредит", "Доход"]

/-- MBank: the `Credit` column is an OUTFLOW (расход). -/
def colsCreditIsExpense : List String := ["Credit", "Списание", "Дебет", "Расход"]

def colsTime : List String :=
  ["Время", "Time", "Время операции", "Operation time", "Transaction time"]

/-! ## Time-cell normalization (`normalizeTimeFromAny`, server.js 229-248) -/

/-- An `HH:mm:ss` triple as produced by `normalizeTimeFromAny`.  The source
produces a string; splicing it into an ISO date is only valid (luxon
`isValid`) when the components are in range, checked by `validTime`. -/
structure TimeTriple where
  hh : ℤ
  mm : ℤ
  ss : ℤ
  deriving Repr, DecidableEq

def d1 (c : Char) : ℤ := (c.toNat : ℤ) - 48

/-- The regex `^(\d{1,2}):(\d{2})(?::(\d{2}))?$` on a trimmed string. -/
def parseTimeChars : List Char → Option TimeTriple
  | [a, ':', m1, m2] =>
      if a.isDigit && m1.isDigit && m2.isDigit then
        some ⟨d1 a, d1 m1 * 10 + d1 m2, 0⟩
      else none
  | [a, b, ':', m1, m2] =>
      if a.isDigit && b.isDigit && m1.isDigit && m2.isDigit then
        some ⟨d1 a * 10 + d1 b, d1 m1 * 10 + d1 m2, 0⟩
      else none
  | [a, ':', m1, m2, ':', s1, s2] =>
      if a.isDigit && m1.isDigit && m2.isDigit && s1.isDigit && s2.isDigit then
        some ⟨d1 a, d1 m1 * 10 + d1 m2, d1 s1 * 10 + d1 s2⟩
      else none
  | [a, b, ':', m1, m2, ':', s1, s2] =>
      if a.isDigit && b.isDigit && m1.isDigit && m2.isDigit && s1.isDigit && s2.isDigit then
        some ⟨d1 a * 10 + d1 b, d1 m1 * 10 + d1 m2, d1 s1 * 10 + d1 s2⟩
      else none
  | _ => none

/-- `normalizeTimeFromAny(timeRaw)`.  A number cell is a day fraction:
`totalSec = Math.round(q * 24 * 3600)`, then `hh = Math.floor(totalSec/3600)`,
`mm = Math.floor((totalSec % 3600)/60)`, `ss = totalSec % 60` (JS `%` is the
truncating remainder, `Int.tmod`).  A string cell is matched against
`H:MM[:SS]`.  A `Date` cell goes through `String(timeRaw)`, whose rendering
(`Thu Jan 01 ...`) never matches the pattern. -/
def normalizeTimeFromAny : Cell → Option TimeTriple
  | Cell.num q =>
      let totalSec := jsRound (q * 24 * 3600)
      some ⟨totalSec / 3600, (Int.tmod totalSec 3600) / 60, Int.tmod totalSec 60⟩
  | Cell.str s => parseTimeChars (jsTrim s).data
  | Cell.date _ => none

def normalizeTimeOpt : Option Cell → Option TimeTriple
  | none => none
  | some c => normalizeTimeFromAny c

/-- The guard `timeRaw !== undefined && timeRaw !== null &&
String(timeRaw).trim() !== ''` (number and `Date` renderings are nonempty). -/
def timePresent : Option Cell → Bool
  | none => false
  | some (Cell.str s) => decide (jsTrim s ≠ "")
  | some _ => true

def validTime (t : TimeTriple) : Bool :=
  decide (0 ≤ t.hh ∧ t.hh ≤ 23 ∧ 0 ≤ t.mm ∧ t.mm ≤ 59 ∧ 0 ≤ t.ss ∧ t.ss ≤ 59)

def timeMs (t : TimeTriple) : ℤ := (t.hh * 3600 + t.mm * 60 + t.ss) * 1000

/-- `DateTime.fromISO(dayT hh:mm:ss, {zone})`: valid exactly when the
(zero-padded) time components are in range. -/
def composeDayTime (day : ℤ) (t : TimeTriple) (off : ℤ) : Option ℤ :=
  if validTime t then some (mkMs day (timeMs t) off) else none

/-! ## Date format parsers (luxon `DateTime.fromFormat`, server.js 180-217)

Each format token has a fixed digit-width regex (`dd`/`LL`/`HH`/`mm`/`ss` =
`\d{2}`, `d`/`L` = `\d{1,2}`, `yyyy` = `\d{4}`) with literal separators, the
regex is anchored at both ends, and luxon then range-checks the components
(month 1-12, day within the month, hour ≤ 23, minute/second ≤ 59),
returning an invalid DateTime otherwise.  Parsing is modelled by matching
the exact character shapes. -/

def num2 (a b : Char) : ℤ := d1 a * 10 + d1 b

def num4 (a b c d : Char) : ℤ := d1 a * 1000 + d1 b * 100 + d1 c * 10 + d1 d

/-- Calendar validation applied by luxon: the day number of `y-m-d`, or
`none` when out of range. -/
def mkDateValid (y m d : ℤ) : Option ℤ :=
  if 1 ≤ m ∧ m ≤ 12 ∧ 1 ≤ d ∧ d ≤ daysInMonth y m then some (civilToDays y m d)
  else none

/-- Format `dd.LL.yyyy`. -/
def fmtDdLLyyyy : List Char → Option ℤ
  | [a, b, '.', c, d, '.', y1, y2, y3, y4] =>
      if [a, b, c, d, y1, y2, y3, y4].all Char.isDigit then
        mkDateValid (num4 y1 y2 y3 y4) (num2 c d) (num2 a b)
      else none
  | _ => none

/-- Format `d.L.yyyy` (one- or two-digit day and month). -/
def fmtDLyyyy : List Char → Option ℤ
  | [a, '.', c, '.', y1, y2, y3, y4] =>
      if [a, c, y1, y2, y3, y4].all Char.isDigit then
        mkDateValid (num4 y1 y2 y3 y4) (d1 c) (d1 a)
      else none
  | [a, '.', c, d, '.', y1, y2, y3, y4] =>
      if [a, c, d, y1, y2, y3, y4].all Char.isDigit then
        mkDateValid (num4 y1 y2 y3 y4) (num2 c d) (d1 a)
      else none
  | [a, b, '.', c, '.', y1, y2, y3, y4] =>
      if [a, b, c, y1, y2, y3, y4].all Char.isDigit then
        mkDateValid (num4 y1 y2 y3 y4) (d1 c) (num2 a b)
      else none
  | [a, b, '.', c, d, '.', y1, y2, y3, y4] =>
      if [a, b, c, d, y1, y2, y3, y4].all Char.isDigit then
        mkDateValid (num4 y1 y2 y3 y4) (num2 c d) (num2 a b)
      else none
  | _ => none

/-- Format `yyyy-LL-dd`. -/
def fmtYyyyLLdd : List Char → Option ℤ
  | [y1, y2, y3, y4, '-', c, d, '-', a, b] =>
      if [y1, y2, y3, y4, c, d, a, b].all Char.isDigit then
        mkDateValid (num4 y1 y2 y3 y4) (num2 c d) (num2 a b)
      else none
  | _ => none

/-- Format `HH:mm:ss` (with luxon's range validation). -/
def fmtHHmmss : List Char → Option TimeTriple
  | [h1, h2, ':', m1, m2, ':', s1, s2] =>
      if [h1, h2, m1, m2, s1, s2].all Char.isDigit then
        let t : TimeTriple := ⟨num2 h1 h2, num2 m1 m2, num2 s1 s2⟩
        if validTime t then some t else none
      else none
  | _ => none

/-- Format `HH:mm`. -/
def fmtHHmm : List Char → Option TimeTriple
  | [h1, h2, ':', m1, m2] =>
      if [h1, h2, m1, m2].all Char.isDigit then
        let t : TimeTriple := ⟨num2 h1 h2, num2 m1 m2, 0⟩
        if validTime t then some t else none
      else none
  | _ => none

/-- Split at the single space separating the date part from the time part
in the combined formats (the date shapes contain no space). -/
def splitAtSpace (cs : List Char) : Option (List Char × List Char) :=
  match cs with
  | [] => none
  | ' ' :: rest => some ([], rest)
  | c :: rest => (splitAtSpace rest).map (fun p => (c :: p.1, p.2))

/-- The six combined date-time format candidates, in source order. -/
def tryCombined (cs : List Char) (off : ℤ) : Option ℤ :=
  match splitAtSpace cs with
  | none => none
  | some (dpart, tpart) =>
      let tryOne (fd : List Char → Option ℤ) (ft : List Char → Option TimeTriple) :
          Option ℤ :=
        match fd dpart, ft tpart with
        | some day, some t => some (mkMs day (timeMs t) off)
        | _, _ => none
      (tryOne fmtDdLLyyyy fmtHHmmss).or
        ((tryOne fmtDdLLyyyy fmtHHmm).or
          ((tryOne fmtDLyyyy fmtHHmmss).or
            ((tryOne fmtDLyyyy fmtHHmm).or
              ((tryOne fmtYyyyLLdd fmtHHmmss).or
                (tryOne fmtYyyyLLdd fmtHHmm)))))

/-- The three date-only format candidates, in source order. -/
def tryDateOnly (cs : List Char) : Option ℤ :=
  (fmtDdLLyyyy cs).or ((fmtDLyyyy cs).or (fmtYyyyLLdd cs))

/-! ## Temporal Reconstructor (`buildTsISO`, server.js lines 139-226) -/

/-- Civil day of a (possibly fractional) millisecond instant. -/
def zoneDayQ (q : ℚ) (off : ℤ) : ℤ := ⌊(q + ((off * 60000 : ℤ) : ℚ)) / ((msPerDay : ℤ) : ℚ)⌋

/-- `buildTsISO(dateRaw, timeRaw, index, zone)`: resolves a raw date cell
(plus an optional time cell and the zero-based row index) to an instant, or
`none`.  `fallback` is the host's free-form `new Date(s)` parser used as the
last resort for strings; no theorem depends on it.  A fractional Excel
serial yields fractional milliseconds inside luxon, floored when the
DateTime is serialized by `toISO()`. -/
def buildTsISO (fallback : String → Option ℤ) (dateRaw timeRaw : Option Cell)
    (index : ℕ) (off : ℤ) : Option ℤ :=
  match dateRaw with
  | some (Cell.date ms) =>
      if zoneTod ms off < 1000 ∧ timePresent timeRaw then
        match normalizeTimeOpt timeRaw with
        | some t => composeDayTime (zoneDay ms off) t off
        | none => some ms
      else some ms
  | some (Cell.num q) =>
      let dtq : ℚ :=
        ((civilToDays 1899 12 30 * msPerDay - off * 60000 : ℤ) : ℚ) + q * ((msPerDay : ℤ) : ℚ)
      if timePresent timeRaw then
        match normalizeTimeOpt timeRaw with
        | some t => composeDayTime (zoneDayQ dtq off) t off
        | none => some ⌊dtq⌋
      else some ⌊dtq⌋
  | some (Cell.str sRaw) =>
      let s := jsTrim sRaw
      match tryCombined s.data off with
      | some ms => some ms
      | none =>
          match tryDateOnly s.data with
          | some day =>
              match (if timePresent timeRaw then normalizeTimeOpt timeRaw else none) with
              | some t => composeDayTime day t off
              | none => composeDayTime day ⟨9 + ((index % 9 : ℕ) : ℤ), 0, 0⟩ off
          | none => fallback s
  | none => none

/-! ## Transaction Assembler (server.js lines 339-372) -/

inductive Direction where
  | credit
  | debit
  deriving Repr, DecidableEq

/-- A canonical transaction.  `dateF` is the `date` field: `ymd(tsDate)`
renders the instant with the host-local `Date` accessors
(`getFullYear`/`getMonth`/`getDate`), i.e. the civil day in the HOST zone
`hostOff`, not necessarily in the configured zone. -/
structure Txn where
  ts : ℤ
  dateF : ℤ
  description : String
  amount : ℚ
  credit : ℚ
  debit : ℚ
  direction : Direction
  deriving Repr, DecidableEq

/-- Rendering used only for the `description` field (`String(cell)`); no
claim depends on its exact form for non-string cells. -/
def cellToString : Cell → String
  | Cell.str s => s
  | Cell.num q => toString q
  | Cell.date ms => "[Date " ++ toString ms ++ "]"

/-- `rawDesc.replace(/\\\\/g, '\\')`: collapse doubled backslashes,
left-to-right, non-overlapping. -/
def collapseBS : List Char → List Char
  | '\\' :: '\\' :: rest => '\\' :: collapseBS rest
  | c :: rest => c :: collapseBS rest
  | [] => []

def descOf (r : Row) : String :=
  jsTrim (String.mk (collapseBS (cellToString ((pick r colsDesc).getD (Cell.str ""))).data))

/-- `Number(parseKgsNumber(x)) || 0`: `NaN` (and a missing cell) becomes 0. -/
def jsOr0 : Option ℚ → ℚ
  | none => 0
  | some q => q

/-- One iteration of the assembly loop: skip when the date is unresolvable
or both magnitudes are ≤ 0, otherwise emit the canonical transaction. -/
def processRow (fallback : String → Option ℤ) (hostOff off : ℤ) (i : ℕ) (r : Row) :
    Option Txn :=
  match buildTsISO fallback (pick r colsDate) (pick r colsTime) i off with
  | none => none
  | some ts =>
      let income := jsOr0 (parseKgsNumber (pick r colsDebitIsIncome))
      let expense := jsOr0 (parseKgsNumber (pick r colsCreditIsExpense))
      if income ≤ 0 ∧ expense ≤ 0 then none
      else
        let amount := income - expense
        some { ts := ts, dateF := zoneDay ts hostOff, description := descOf r,
               amount := amount, credit := income, debit := expense,
               direction := if amount < 0 then Direction.debit else Direction.credit }

/-- The assembly loop: `transactions.push(...)` over `rowsFixed.entries()`. -/
def assembleGo (fallback : String → Option ℤ) (hostOff off : ℤ) :
    List (ℕ × Row) → List Txn → List Txn
  | [], acc => acc
  | (i, r) :: rest, acc =>
      match processRow fallback hostOff off i r with
      | none => assembleGo fallback hostOff off rest acc
      | some t => assembleGo fallback hostOff off rest (acc ++ [t])

def assemble (fallback : String → Option ℤ) (hostOff off : ℤ) (rows : List Row) :
    List Txn :=
  assembleGo fallback hostOff off rows.enum []

/-! ## Period, Daily Aggregator, Totals (server.js lines 374-424)

The source computes the period by sorting the `YYYY-MM-DD` date strings and
taking the first and last; rendering a day number as `YYYY-MM-DD` is
strictly monotone, so this is the minimum and maximum day number. -/

def periodFrom (txns : List Txn) : Option ℤ := (txns.map (fun t => t.dateF)).min?

def periodTo (txns : List Txn) : Option ℤ := (txns.map (fun t => t.dateF)).max?

/-- One step of the `byDay` map accumulation: positive amounts into
`credit`, absolute values of negative amounts into `debit`, keyed by the
transaction's `date` field. -/
def byDayStep (f : ℤ → ℚ × ℚ) (t : Txn) : ℤ → ℚ × ℚ :=
  fun d =>
    if d = t.dateF then
      ((f t.dateF).1 + (if t.amount > 0 then t.amount else 0),
       (f t.dateF).2 + (if t.amount < 0 then -t.amount else 0))
    else f d

/-- The `byDay` map as a total function (`byDay.get(key) || zero bucket`). -/
def byDay (txns : List Txn) : ℤ → ℚ × ℚ :=
  txns.foldl byDayStep (fun _ => (0, 0))

structure Bucket where
  date : ℤ
  credit : ℚ
  debit : ℚ
  net : ℚ
  amount : ℚ
  deriving Repr, DecidableEq

/-- `n` consecutive days starting at `a`. -/
def dayRangeAux (a : ℤ) : ℕ → List ℤ
  | 0 => []
  | n + 1 => a :: dayRangeAux (a + 1) n

/-- Days `a` to `b` inclusive (the `while (cur <= end) { ...; cur = cur.plus({days: 1}) }`
gap-fill loop). -/
def dayRange (a b : ℤ) : List ℤ := dayRangeAux a (b + 1 - a).toNat

def mkBucket (txns : List Txn) (d : ℤ) : Bucket :=
  { date := d
    credit := round2 (byDay txns d).1
    debit := round2 (byDay txns d).2
    net := round2 ((byDay txns d).1 - (byDay txns d).2)
    amount := round2 (byDay txns d).2 }

def dailySpendingOf (txns : List Txn) : Option ℤ → Option ℤ → List Bucket
  | some f, some t => (dayRange f t).map (mkBucket txns)
  | _, _ => []

structure Totals where
  credits : ℚ
  debits : ℚ
  net : ℚ
  expenses : ℚ
  spending : ℚ
  deriving Repr, DecidableEq

def totalsOf (txns : List Txn) : Totals :=
  let credits := txns.foldl (fun s t => s + t.credit) 0
  let debits := txns.foldl (fun s t => s + t.debit) 0
  let net := credits - debits
  let expenses := round2 debits
  { credits := round2 credits, debits := round2 debits, net := round2 net,
    expenses := expenses, spending := expenses }

/-! ## Cumulative Engine (src/utils/cumulative.js)

The JS `Array.prototype.sort` with the comparator
`fromISO(a.ts).toMillis() - fromISO(b.ts).toMillis()` is stable (ES2019);
a stable sort by a key is the sort of the index-tagged list under the
lexicographic order (key, original index), which is total, transitive and
antisymmetric, so any sorting algorithm yields the same list — modelled
here by insertion sort (structurally recursive, hence evaluable). -/

structure TP where
  ts : ℤ
  amount : ℚ
  deriving Repr, DecidableEq

instance : Inhabited TP := ⟨⟨0, 0⟩⟩

def tsLexLe (a b : ℕ × TP) : Bool :=
  decide (a.2.ts < b.2.ts ∨ (a.2.ts = b.2.ts ∧ a.1 ≤ b.1))

def insertTs (a : ℕ × TP) : List (ℕ × TP) → List (ℕ × TP)
  | [] => [a]
  | b :: rest => if tsLexLe a b then a :: b :: rest else b :: insertTs a rest

def sortPairs : List (ℕ × TP) → List (ℕ × TP)
  | [] => []
  | a :: rest => insertTs a (sortPairs rest)

/-- `[...transactions].sort((a,b) => millis(a) - millis(b))`. -/
def sortByTs (l : List TP) : List TP := (sortPairs l.enum).map Prod.snd

structure CPoint where
  ts : ℤ
  cumulative : ℚ
  deriving Repr, DecidableEq

/-- The accumulation loop of `buildCumulativeTimeline`: full-precision
running total, rounded only at emission. -/
def cumGo (running : ℚ) : List TP → List CPoint
  | [] => []
  | t :: rest => { ts := t.ts, cumulative := round2 (running + t.amount) } ::
      cumGo (running + t.amount) rest

def buildCumulativeTimeline (l : List TP) : List CPoint := cumGo 0 (sortByTs l)

structure Close where
  date : ℤ
  cumulativeClose : ℚ
  deriving Repr, DecidableEq

/-- `d.endOf('day')` in the zone, in milliseconds (`23:59:59.999`). -/
def dayEndMs (d off : ℤ) : ℤ := (d + 1) * msPerDay - off * 60000 - 1

/-- The single forward sweep of `attachDailyCumulativeClose`: for each day
absorb the pending transactions with `ts ≤ dayEnd` (the inner `while`
breaks at the first later one), then record the rounded running total. -/
def sweep (off : ℤ) : List ℤ → List TP → ℚ → List Close
  | [], _, _ => []
  | d :: rest, pending, running =>
      let absorbed := pending.takeWhile (fun t => t.ts ≤ dayEndMs d off)
      let remaining := pending.dropWhile (fun t => t.ts ≤ dayEndMs d off)
      let r := running + (absorbed.map (fun t => t.amount)).sum
      { date := d, cumulativeClose := round2 r } :: sweep off rest remaining r

def attachDailyCumulativeClose (f t : ℤ) (l : List TP) (off : ℤ) : List Close :=
  sweep off (dayRange f t) (sortByTs l) 0

/-! ## The whole `/api/statement/parse` pipeline (non-debug path) -/

structure ParseOut where
  transactions : List Txn
  periodFrom : Option ℤ
  periodTo : Option ℤ
  dailySpending : List Bucket
  timeline : List CPoint
  dailyCum : List Close
  totals : Totals
  deriving Repr, DecidableEq

/-- The whole parse: assemble transactions, derive the period, the
gap-filled daily buckets, the totals, and — when any transaction survived —
the cumulative timeline and the per-day closes (the response then mixes
each close into its daily bucket as `cumulativeClose`; the two series are
modelled side by side). `hostOff` is the Node host's local-zone offset
(used only by `ymd`), `off` the configured zone (`Asia/Bishkek`, +360). -/
def parseOutAux (off : ℤ) (txns : List Txn) : ParseOut :=
  match txns, periodFrom txns, periodTo txns with
  | _ :: _, some a, some b =>
      { transactions := txns, periodFrom := periodFrom txns, periodTo := periodTo txns,
        dailySpending := dailySpendingOf txns (periodFrom txns) (periodTo txns),
        timeline := buildCumulativeTimeline (txns.map (fun t => TP.mk t.ts t.amount)),
        dailyCum := attachDailyCumulativeClose a b (txns.map (fun t => TP.mk t.ts t.amount)) off,
        totals := totalsOf txns }
  | _, _, _ =>
      { transactions := txns, periodFrom := periodFrom txns, periodTo := periodTo txns,
        dailySpending := dailySpendingOf txns (periodFrom txns) (periodTo txns),
        timeline := [], dailyCum := [], totals := totalsOf txns }

def parseStatement (fallback : String → Option ℤ) (hostOff off : ℤ) (rows : List Row) :
    ParseOut :=
  parseOutAux off (assemble fallback hostOff off rows)

/-- Per-day credit as the Daily Aggregator accumulates it: the sum of the
positive `amount`s of the transactions whose `date` field is `d`. -/
def dayCredit (txns : List Txn) (d : ℤ) : ℚ :=
  ((txns.filter (fun t => t.dateF = d)).map
    (fun t => if t.amount > 0 then t.amount else 0)).sum

/-- Per-day debit: the sum of `|amount|` over the negative-`amount`
transactions of the day. -/
def dayDebit (txns : List Txn) (d : ℤ) : ℚ :=
  ((txns.filter (fun t => t.dateF = d)).map
    (fun t => if t.amount < 0 then -t.amount else 0)).sum

/-- The exact (unrounded) sum of the amounts of the points whose `ts` is at
or before the end of day `d` in zone `off` — the value whose rounding the
close sweep emits for day `d` when the pending list is sorted. -/
def cumThrough (l : List TP) (off d : ℤ) : ℚ :=
  ((l.filter (fun x => decide (x.ts ≤ dayEndMs d off))).map (fun x => x.amount)).sum

/-! ## Helper lemmas -/

theorem abs_round2_sub_le (q : ℚ) : |round2 q - q| ≤ 1/200 := by
  unfold round2
  have h1 : (⌊q * 100 + 1/2⌋ : ℚ) ≤ q * 100 + 1/2 := Int.floor_le _
  have h2 : q * 100 + 1/2 - 1 < (⌊q * 100 + 1/2⌋ : ℚ) := Int.sub_one_lt_floor _
  rw [abs_le]
  constructor <;> [nlinarith; nlinarith]

/-- `round2` always lands on a multiple of 1/100. -/
theorem round2_eq_int_div (q : ℚ) : ∃ n : ℤ, round2 q = (n : ℚ) / 100 :=
  ⟨⌊q * 100 + 1/2⌋, rfl⟩

theorem zoneDay_mkMs (day todMs off : ℤ) (h0 : 0 ≤ todMs) (h1 : todMs < msPerDay) :
    zoneDay (mkMs day todMs off) off = day := by
  unfold zoneDay mkMs
  have h : day * msPerDay + todMs - off * 60000 + off * 60000 = todMs + msPerDay * day := by
    ring
  rw [h, Int.add_mul_ediv_left _ _ (by decide : msPerDay ≠ 0),
    Int.ediv_eq_zero_of_lt h0 h1, zero_add]

theorem zoneTod_mkMs (day todMs off : ℤ) (h0 : 0 ≤ todMs) (h1 : todMs < msPerDay) :
    zoneTod (mkMs day todMs off) off = todMs := by
  unfold zoneTod mkMs
  have h : day * msPerDay + todMs - off * 60000 + off * 60000 = todMs + msPerDay * day := by
    ring
  rw [h, Int.add_mul_emod_self_left, Int.emod_eq_of_lt h0 h1]


theorem dayRangeAux_zero (a : ℤ) : dayRangeAux a 0 = [] := rfl

theorem dayRangeAux_succ (a : ℤ) (n : ℕ) :
    dayRangeAux a (n + 1) = a :: dayRangeAux (a + 1) n := rfl

theorem length_dayRangeAux (a : ℤ) (n : ℕ) : (dayRangeAux a n).length = n := by
  induction n generalizing a with
  | zero => rfl
  | succ n ih => simp [dayRangeAux_succ, ih]

theorem mem_dayRangeAux (a d : ℤ) (n : ℕ) :
    d ∈ dayRangeAux a n ↔ a ≤ d ∧ d < a + n := by
  induction n generalizing a with
  | zero => simp [dayRangeAux_zero]
  | succ n ih =>
      rw [dayRangeAux_succ]
      simp only [List.mem_cons, ih]
      push_cast
      omega

theorem mem_dayRange (a b d : ℤ) (hab : a ≤ b) : d ∈ dayRange a b ↔ a ≤ d ∧ d ≤ b := by
  unfold dayRange
  rw [mem_dayRangeAux]
  have h : ((b + 1 - a).toNat : ℤ) = b + 1 - a := Int.toNat_of_nonneg (by omega)
  omega

theorem pairwise_lt_dayRangeAux (a : ℤ) (n : ℕ) :
    (dayRangeAux a n).Pairwise (fun x y => x < y) := by
  induction n generalizing a with
  | zero => exact List.Pairwise.nil
  | succ n ih =>
      rw [dayRangeAux_succ]
      refine List.Pairwise.cons ?_ (ih (a + 1))
      intro d hd
      have := (mem_dayRangeAux (a + 1) d n).1 hd
      omega

/-- A left fold accumulating `f` is the initial value plus the mapped sum. -/
theorem foldl_add_eq_sum {α : Type} (f : α → ℚ) (l : List α) (s : ℚ) :
    l.foldl (fun acc x => acc + f x) s = s + (l.map f).sum := by
  induction l generalizing s with
  | nil => simp
  | cons x xs ih => simp [ih, add_assoc]

theorem byDay_foldl_char (txns : List Txn) (g : ℤ → ℚ × ℚ) (d : ℤ) :
    (txns.foldl byDayStep g) d = ((g d).1 + dayCredit txns d, (g d).2 + dayDebit txns d) := by
  induction txns generalizing g with
  | nil => simp [dayCredit, dayDebit]
  | cons t ts ih =>
      rw [List.foldl_cons, ih]
      by_cases h : t.dateF = d
      · subst h
        simp only [byDayStep, dayCredit, dayDebit, List.filter_cons, if_pos rfl,
          decide_eq_true_eq, Prod.mk.injEq, if_pos (trivial : True), List.map_cons,
          List.sum_cons]
        constructor
        · ring
        · ring
      · have hne : d ≠ t.dateF := fun hh => h hh.symm
        simp only [byDayStep, dayCredit, dayDebit, List.filter_cons, if_neg hne, Prod.mk.injEq]
        have hd : decide (t.dateF = d) = false := by simp [h]
        rw [hd]
        simp

theorem byDay_char (txns : List Txn) (d : ℤ) :
    byDay txns d = (dayCredit txns d, dayDebit txns d) := by
  unfold byDay
  rw [byDay_foldl_char]
  simp

/-- The difference introduced by rounding a difference versus differencing
two roundings is a multiple of 1/100 of magnitude at most 3/200, hence at
most 1/100. -/
theorem round2_sub_comm_tol (u v : ℚ) :
    |round2 (u - v) - (round2 u - round2 v)| ≤ 1/100 := by
  have h1 := abs_round2_sub_le (u - v)
  have h2 := abs_round2_sub_le u
  have h3 := abs_round2_sub_le v
  rw [abs_le] at h1 h2 h3
  have hval : round2 (u - v) - (round2 u - round2 v)
      = ((⌊(u - v) * 100 + 1/2⌋ - ⌊u * 100 + 1/2⌋ + ⌊v * 100 + 1/2⌋ : ℤ) : ℚ) / 100 := by
    unfold round2
    push_cast
    ring
  set k : ℤ := ⌊(u - v) * 100 + 1/2⌋ - ⌊u * 100 + 1/2⌋ + ⌊v * 100 + 1/2⌋ with hkdef
  have hub : (k : ℚ) / 100 ≤ 3/200 := by
    rw [← hval]; linarith [h1.1, h1.2, h2.1, h2.2, h3.1, h3.2]
  have hlb : -(3/200) ≤ (k : ℚ) / 100 := by
    rw [← hval]; linarith [h1.1, h1.2, h2.1, h2.2, h3.1, h3.2]
  have hk2 : (k : ℚ) < 2 := by linarith
  have hk2' : (-2 : ℚ) < (k : ℚ) := by linarith
  have hku : k ≤ 1 := by
    have hx : k < 2 := by exact_mod_cast hk2
    omega
  have hkl : -1 ≤ k := by
    have hx : -2 < k := by exact_mod_cast hk2'
    omega
  have hqu : (k : ℚ) ≤ 1 := by exact_mod_cast hku
  have hql : (-1 : ℚ) ≤ (k : ℚ) := by exact_mod_cast hkl
  rw [hval, abs_le]
  refine ⟨by linarith, by linarith⟩

/-! ## Sorting lemmas (stability, sortedness, permutation) -/

theorem tsLexLe_total (a b : ℕ × TP) : tsLexLe a b = true ∨ tsLexLe b a = true := by
  unfold tsLexLe
  simp only [decide_eq_true_eq]
  omega

theorem tsLexLe_trans (a b c : ℕ × TP) (h1 : tsLexLe a b = true) (h2 : tsLexLe b c = true) :
    tsLexLe a c = true := by
  unfold tsLexLe at *
  simp only [decide_eq_true_eq] at *
  omega

theorem insertTs_perm (a : ℕ × TP) (l : List (ℕ × TP)) : (insertTs a l).Perm (a :: l) := by
  induction l with
  | nil => exact List.Perm.refl _
  | cons b rest ih =>
      unfold insertTs
      by_cases h : tsLexLe a b
      · rw [if_pos h]
      · rw [if_neg h]
        exact (List.Perm.cons b ih).trans (List.Perm.swap a b rest)

theorem sortPairs_perm (l : List (ℕ × TP)) : (sortPairs l).Perm l := by
  induction l with
  | nil => exact List.Perm.refl _
  | cons a rest ih =>
      unfold sortPairs
      exact (insertTs_perm a (sortPairs rest)).trans (List.Perm.cons a ih)

theorem mem_insertTs (a x : ℕ × TP) (l : List (ℕ × TP)) :
    x ∈ insertTs a l ↔ x = a ∨ x ∈ l := by
  constructor
  · intro hx
    have := (insertTs_perm a l).mem_iff.1 hx
    simpa using this
  · intro hx
    refine (insertTs_perm a l).mem_iff.2 ?_
    simpa using hx

theorem pairwise_insertTs (a : ℕ × TP) (l : List (ℕ × TP))
    (hl : l.Pairwise (fun x y => tsLexLe x y = true)) :
    (insertTs a l).Pairwise (fun x y => tsLexLe x y = true) := by
  induction l with
  | nil => simp [insertTs]
  | cons b rest ih =>
      rw [List.pairwise_cons] at hl
      obtain ⟨hb, hrest⟩ := hl
      unfold insertTs
      by_cases h : tsLexLe a b
      · rw [if_pos h]
        refine List.Pairwise.cons ?_ (List.Pairwise.cons hb hrest)
        intro x hx
        rcases List.mem_cons.1 hx with rfl | hx
        · exact h
        · exact tsLexLe_trans a b x h (hb x hx)
      · rw [if_neg h]
        refine List.Pairwise.cons ?_ (ih hrest)
        intro x hx
        rcases (mem_insertTs a x rest).1 hx with rfl | hx
        · rcases tsLexLe_total x b with hc | hc
          · exact absurd hc h
          · exact hc
        · exact hb x hx

theorem sortPairs_sorted (l : List (ℕ × TP)) :
    (sortPairs l).Pairwise (fun x y => tsLexLe x y = true) := by
  induction l with
  | nil => exact List.Pairwise.nil
  | cons a rest ih => exact pairwise_insertTs a (sortPairs rest) ih

/-- Stability: the sorted index-tagged list is strictly increasing in the
lexicographic order (timestamp, original index) — equal timestamps keep
their original relative order. -/
theorem sortPairs_stable (l : List TP) :
    (sortPairs l.enum).Pairwise
      (fun x y => x.2.ts < y.2.ts ∨ (x.2.ts = y.2.ts ∧ x.1 < y.1)) := by
  have hsorted := sortPairs_sorted l.enum
  have hnodup : ((sortPairs l.enum).map Prod.fst).Nodup := by
    refine ((sortPairs_perm l.enum).map Prod.fst).nodup_iff.2 ?_
    rw [List.enum_map_fst]
    exact List.nodup_range _
  have hne : (sortPairs l.enum).Pairwise (fun x y => x.1 ≠ y.1) :=
    List.pairwise_map.1 hnodup
  refine (hsorted.and hne).imp ?_
  rintro a b ⟨hle, hne1⟩
  unfold tsLexLe at hle
  simp only [decide_eq_true_eq] at hle
  rcases hle with h | ⟨h1, h2⟩
  · exact Or.inl h
  · exact Or.inr ⟨h1, lt_of_le_of_ne h2 hne1⟩

/-! ## Running-sum characterization of the timeline -/

theorem cumGo_eq (l : List TP) (r : ℚ) :
    cumGo r l = (List.range l.length).map (fun k =>
      { ts := (l.getD k default).ts,
        cumulative := round2 (r + ((l.take (k + 1)).map (fun t => t.amount)).sum) }) := by
  induction l generalizing r with
  | nil => simp [cumGo]
  | cons t rest ih =>
      rw [cumGo, ih (r + t.amount)]
      rw [List.length_cons, List.range_succ_eq_map, List.map_cons, List.map_map]
      congr 1
      · simp
      · refine List.map_congr_left ?_
        intro k hk
        simp only [Function.comp_apply, List.getD_cons_succ, List.take_succ_cons,
          List.map_cons, List.sum_cons, CPoint.mk.injEq, Nat.succ_eq_add_one]
        refine ⟨by trivial, ?_⟩
        congr 1
        ring

/-! ## Comma-replacement lemmas (Amount Parser) -/

theorem jsNumTail_cons (intPart : List Char) (c : Char) (frac : List Char) :
    jsNumTail intPart (c :: frac) =
      if c = '.' then
        if frac.all Char.isDigit && !(intPart.isEmpty && frac.isEmpty) then
          some ((digitsToNat intPart : ℚ) + (digitsToNat frac : ℚ) / (10 ^ frac.length))
        else none
      else none := rfl

theorem rfca_nil : replaceFirstCommaAux [] = [] := rfl

theorem rfca_cons (c : Char) (rest : List Char) :
    replaceFirstCommaAux (c :: rest) =
      if c = ',' then '.' :: rest else c :: replaceFirstCommaAux rest := rfl

theorem jsNumUnsigned_comma (cs : List Char) (h : ',' ∈ cs) : jsNumUnsigned cs = none := by
  have hsplit : cs.takeWhile Char.isDigit ++ cs.dropWhile Char.isDigit = cs :=
    List.takeWhile_append_dropWhile _ _
  have hmem : ',' ∈ cs.dropWhile Char.isDigit := by
    have h2 : ',' ∈ cs.takeWhile Char.isDigit ++ cs.dropWhile Char.isDigit := by
      rw [hsplit]; exact h
    rcases List.mem_append.1 h2 with h3 | h3
    · have := List.mem_takeWhile_imp h3
      simp at this
    · exact h3
  unfold jsNumUnsigned
  cases hdw : cs.dropWhile Char.isDigit with
  | nil => rw [hdw] at hmem; cases hmem
  | cons c frac =>
      rw [hdw] at hmem
      rw [jsNumTail_cons]
      by_cases hc : c = '.'
      · subst hc
        have hfrac : ',' ∈ frac := by
          rcases List.mem_cons.1 hmem with h4 | h4
          · cases h4
          · exact h4
        have hall : frac.all Char.isDigit = false := by
          rw [Bool.eq_false_iff]
          intro hcon
          rw [List.all_eq_true] at hcon
          exact absurd (hcon ',' hfrac) (by decide)
        rw [if_pos rfl, hall]
        simp
      · rw [if_neg hc]

theorem jsNumberAux_nil : jsNumberAux [] = some 0 := rfl

theorem jsNumberAux_cons (c : Char) (rest : List Char) :
    jsNumberAux (c :: rest) =
      if c = '-' then (jsNumUnsigned rest).map (fun q => -q)
      else if c = '+' then jsNumUnsigned rest
      else jsNumUnsigned (c :: rest) := rfl

theorem jsNumber_comma (s : String) (h : ',' ∈ s.data) : jsNumber s = none := by
  unfold jsNumber
  cases hd : s.data with
  | nil => rw [hd] at h; cases h
  | cons c rest =>
      rw [hd] at h
      rw [jsNumberAux_cons]
      by_cases h1 : c = '-'
      · rw [if_pos h1]
        have hr : ',' ∈ rest := by
          rcases List.mem_cons.1 h with h2 | h2
          · rw [← h2] at h1; cases h1
          · exact h2
        rw [jsNumUnsigned_comma rest hr]
        rfl
      · rw [if_neg h1]
        by_cases h2 : c = '+'
        · rw [if_pos h2]
          have hr : ',' ∈ rest := by
            rcases List.mem_cons.1 h with h3 | h3
            · rw [← h3] at h2; cases h2
            · exact h3
          exact jsNumUnsigned_comma rest hr
        · rw [if_neg h2]
          exact jsNumUnsigned_comma _ h

theorem rfca_append_not_mem (xs ys : List Char) (h : ',' ∉ xs) :
    replaceFirstCommaAux (xs ++ ys) = xs ++ replaceFirstCommaAux ys := by
  induction xs with
  | nil => rfl
  | cons c rest ih =>
      have hc : c ≠ ',' := fun hh => h (hh ▸ List.mem_cons_self c rest)
      rw [List.cons_append, rfca_cons, if_neg hc,
        ih (fun hh => h (List.mem_cons_of_mem c hh)), List.cons_append]

theorem mem_rfca_of_two (l : List Char) (h : 2 ≤ l.count ',') :
    ',' ∈ replaceFirstCommaAux l := by
  induction l with
  | nil => simp at h
  | cons c rest ih =>
      rw [rfca_cons]
      by_cases hc : c = ','
      · rw [if_pos hc]
        subst hc
        rw [List.count_cons_self] at h
        have h1 : 1 ≤ rest.count ',' := by omega
        exact List.mem_cons_of_mem _ (List.count_pos_iff.1 h1)
      · rw [if_neg hc]
        rw [List.count_cons_of_ne (fun hh => hc hh.symm)] at h
        exact List.mem_cons_of_mem _ (ih h)

theorem exists_first_comma (l : List Char) (h : ',' ∈ l) :
    ∃ xs ys, l = xs ++ ',' :: ys ∧ ',' ∉ xs := by
  induction l with
  | nil => cases h
  | cons c rest ih =>
      by_cases hc : c = ','
      · exact ⟨[], rest, by rw [hc]; rfl, by simp⟩
      · have h' : ',' ∈ rest := by
          rcases List.mem_cons.1 h with h2 | h2
          · rw [← h2] at hc; cases hc rfl
          · exact h2
        obtain ⟨xs, ys, heq, hnx⟩ := ih h'
        refine ⟨c :: xs, ys, by rw [heq, List.cons_append], ?_⟩
        intro hmem
        rcases List.mem_cons.1 hmem with h3 | h3
        · exact hc h3.symm
        · exact hnx h3

/-- When the string has exactly one comma, replacing the first comma and
replacing the last comma coincide. -/
theorem rfca_reverse_of_single (l : List Char) (h : l.count ',' = 1) :
    (replaceFirstCommaAux l.reverse).reverse = replaceFirstCommaAux l := by
  have hmem : ',' ∈ l := List.count_pos_iff.1 (by omega)
  obtain ⟨xs, ys, heq, hnx⟩ := exists_first_comma l hmem
  have hx0 : xs.count ',' = 0 := List.count_eq_zero.2 hnx
  have hny : ',' ∉ ys := by
    rw [heq] at h
    simp [List.count_append, List.count_cons, hx0] at h
    exact List.count_eq_zero.1 (by omega)
  subst heq
  have h1 : replaceFirstCommaAux (xs ++ ',' :: ys) = xs ++ '.' :: ys := by
    rw [rfca_append_not_mem _ _ hnx, rfca_cons, if_pos rfl]
  have h2 : (xs ++ ',' :: ys).reverse = ys.reverse ++ ',' :: xs.reverse := by
    simp
  have h3 : replaceFirstCommaAux ((xs ++ ',' :: ys).reverse)
      = ys.reverse ++ '.' :: xs.reverse := by
    rw [h2, rfca_append_not_mem _ _ (by simpa using hny), rfca_cons, if_pos rfl]
  rw [h1, h3]
  simp

theorem mem_removeDots (s : String) (h : ',' ∈ s.data) : ',' ∈ (removeDots s).data := by
  unfold removeDots
  exact List.mem_filter.2 ⟨h, by simp⟩

theorem ecdAux_two (c1 c2 : Char) :
    endsCommaDecAux [c1, c2] = if c2 = ',' then c1.isDigit else false := rfl

theorem ecdAux_three (c1 c2 c3 : Char) (rest : List Char) :
    endsCommaDecAux (c1 :: c2 :: c3 :: rest) =
      if c2 = ',' then c1.isDigit else (c3 = ',' && c1.isDigit && c2.isDigit) := rfl

theorem endsCommaDec_mem (s : String) (h : endsCommaDec s = true) : ',' ∈ s.data := by
  unfold endsCommaDec at h
  rw [← List.mem_reverse]
  cases hrev : s.data.reverse with
  | nil => rw [hrev] at h; cases h
  | cons c1 rest1 =>
      rw [hrev] at h
      cases rest1 with
      | nil => cases h
      | cons c2 rest =>
          cases rest with
          | nil =>
              by_cases hc : c2 = ','
              · subst hc
                exact List.mem_cons_of_mem _ (List.mem_cons_self _ _)
              · rw [ecdAux_two, if_neg hc] at h
                cases h
          | cons c3 rest' =>
              by_cases hc : c2 = ','
              · subst hc
                exact List.mem_cons_of_mem _ (List.mem_cons_self _ _)
              · rw [ecdAux_three, if_neg hc] at h
                have h3 : c3 = ',' := by
                  by_cases hcc : c3 = ','
                  · exact hcc
                  · simp [hcc] at h
                subst h3
                exact List.mem_cons_of_mem _ (List.mem_cons_of_mem _ (List.mem_cons_self _ _))

/-- First-comma replacement and last-comma replacement are observationally
equal under JS `Number`: with one comma they are the same string, with two
or more both still contain a comma and parse as `NaN`. -/
theorem jsNumber_replaceFirst_eq_replaceLast (s : String) (h : ',' ∈ s.data) :
    jsNumber (replaceFirstComma s) = jsNumber (replaceLastComma s) := by
  rcases Nat.lt_or_ge (s.data.count ',') 2 with hlt | hge
  · have h1 : s.data.count ',' = 1 := by
      have := List.count_pos_iff.2 h
      omega
    unfold replaceFirstComma replaceLastComma
    rw [rfca_reverse_of_single s.data h1]
  · have hmem1 : ',' ∈ (replaceFirstComma s).data := mem_rfca_of_two s.data hge
    have hmem2 : ',' ∈ (replaceLastComma s).data := by
      unfold replaceLastComma
      show ',' ∈ (replaceFirstCommaAux s.data.reverse).reverse
      rw [List.mem_reverse]
      refine mem_rfca_of_two s.data.reverse ?_
      rw [List.count_reverse]
      exact hge
    rw [jsNumber_comma _ hmem1, jsNumber_comma _ hmem2]
/-! ## Assembler loop lemmas -/

theorem assembleGo_nil (fb : String → Option ℤ) (hostOff off : ℤ) (acc : List Txn) :
    assembleGo fb hostOff off [] acc = acc := rfl

theorem assembleGo_cons (fb : String → Option ℤ) (hostOff off : ℤ) (i : ℕ) (r : Row)
    (rest : List (ℕ × Row)) (acc : List Txn) :
    assembleGo fb hostOff off ((i, r) :: rest) acc =
      match processRow fb hostOff off i r with
      | none => assembleGo fb hostOff off rest acc
      | some t => assembleGo fb hostOff off rest (acc ++ [t]) := rfl

/-- The push-loop is an order-preserving `filterMap` over the indexed rows. -/
theorem assembleGo_eq_filterMap (fb : String → Option ℤ) (hostOff off : ℤ)
    (irows : List (ℕ × Row)) (acc : List Txn) :
    assembleGo fb hostOff off irows acc =
      acc ++ irows.filterMap (fun p => processRow fb hostOff off p.1 p.2) := by
  induction irows generalizing acc with
  | nil => simp [assembleGo_nil]
  | cons p rest ih =>
      obtain ⟨i, r⟩ := p
      rw [assembleGo_cons]
      cases hp : processRow fb hostOff off i r with
      | none => simp [List.filterMap_cons, hp, ih]
      | some t => simp [List.filterMap_cons, hp, ih]

/-- A row is skipped exactly when its date is unresolvable or both parsed
magnitudes are non-positive. -/
theorem processRow_none_iff (fb : String → Option ℤ) (hostOff off : ℤ) (i : ℕ) (r : Row) :
    processRow fb hostOff off i r = none ↔
      (buildTsISO fb (pick r colsDate) (pick r colsTime) i off = none ∨
       (jsOr0 (parseKgsNumber (pick r colsDebitIsIncome)) ≤ 0 ∧
        jsOr0 (parseKgsNumber (pick r colsCreditIsExpense)) ≤ 0)) := by
  unfold processRow
  cases hb : buildTsISO fb (pick r colsDate) (pick r colsTime) i off with
  | none => simp
  | some ts =>
      simp only [Option.some.injEq]
      by_cases h : jsOr0 (parseKgsNumber (pick r colsDebitIsIncome)) ≤ 0 ∧
          jsOr0 (parseKgsNumber (pick r colsCreditIsExpense)) ≤ 0
      · simp [if_pos h, h]
      · simp [if_neg h, h]

/-- The `transactions` field of the response is the assembled list, in
either branch. -/
theorem parseOutAux_transactions (off : ℤ) (txns : List Txn) :
    (parseOutAux off txns).transactions = txns := by
  unfold parseOutAux
  cases txns with
  | nil => rfl
  | cons t ts =>
      cases hfo : periodFrom (t :: ts) with
      | none => rfl
      | some a =>
          cases hto : periodTo (t :: ts) with
          | none => rfl
          | some b => rfl

theorem parseStatement_transactions (fb : String → Option ℤ) (hostOff off : ℤ)
    (rows : List Row) :
    (parseStatement fb hostOff off rows).transactions = assemble fb hostOff off rows := by
  unfold parseStatement
  exact parseOutAux_transactions _ _

/-- The `dailySpending` field is the gap-filled bucket list, in either
branch. -/
theorem parseOutAux_dailySpending (off : ℤ) (txns : List Txn) :
    (parseOutAux off txns).dailySpending =
      dailySpendingOf txns (periodFrom txns) (periodTo txns) := by
  unfold parseOutAux
  cases txns with
  | nil => rfl
  | cons t ts =>
      cases hfo : periodFrom (t :: ts) with
      | none => rfl
      | some a =>
          cases hto : periodTo (t :: ts) with
          | none => rfl
          | some b => rfl

theorem parseOutAux_dailyCum (off : ℤ) (t : Txn) (ts : List Txn) (a b : ℤ)
    (hfo : periodFrom (t :: ts) = some a) (hto : periodTo (t :: ts) = some b) :
    (parseOutAux off (t :: ts)).dailyCum =
      attachDailyCumulativeClose a b ((t :: ts).map (fun x => TP.mk x.ts x.amount)) off := by
  unfold parseOutAux
  simp only [hfo, hto]

theorem parseOutAux_timeline (off : ℤ) (t : Txn) (ts : List Txn) (a b : ℤ)
    (hfo : periodFrom (t :: ts) = some a) (hto : periodTo (t :: ts) = some b) :
    (parseOutAux off (t :: ts)).timeline =
      buildCumulativeTimeline ((t :: ts).map (fun x => TP.mk x.ts x.amount)) := by
  unfold parseOutAux
  simp only [hfo, hto]

/-! ## Claim theorems -/

/-- C10: the Assembler appends surviving rows in input-row order and never
reorders them: the push-loop equals an order-preserving `filterMap` over the
index-tagged row list, both for the loop with any accumulator and for the
whole `assemble` over `rowsFixed.entries()`.  Chronological order is not
imposed here (the Cumulative Engine sorts later). -/
theorem c10_assembler_preserves_row_order (fb : String → Option ℤ) (hostOff off : ℤ) :
    (∀ (irows : List (ℕ × Row)) (acc : List Txn),
      assembleGo fb hostOff off irows acc =
        acc ++ irows.filterMap (fun p => processRow fb hostOff off p.1 p.2)) ∧
    (∀ rows : List Row,
      assemble fb hostOff off rows =
        rows.enum.filterMap (fun p => processRow fb hostOff off p.1 p.2)) := by
  constructor
  · exact fun irows acc => assembleGo_eq_filterMap fb hostOff off irows acc
  · intro rows
    unfold assemble
    rw [assembleGo_eq_filterMap]
    simp

/-- C9: a row whose date cannot be reconstructed, or whose parsed income and
expense magnitudes are both non-positive (unparseable counting as zero), is
silently skipped: the loop result over the other (still index-tagged) rows
is unchanged, and the remaining rows are still processed.  When zero rows
survive, the period is `(null, null)` and `dailySpending`, `timeline` and
the daily closes are all empty. -/
theorem c9_skipped_rows_and_empty_result :
    (∀ (fb : String → Option ℤ) (hostOff off : ℤ) (i : ℕ) (r : Row)
        (irows₁ irows₂ : List (ℕ × Row)) (acc : List Txn),
      (buildTsISO fb (pick r colsDate) (pick r colsTime) i off = none ∨
       (jsOr0 (parseKgsNumber (pick r colsDebitIsIncome)) ≤ 0 ∧
        jsOr0 (parseKgsNumber (pick r colsCreditIsExpense)) ≤ 0)) →
      assembleGo fb hostOff off (irows₁ ++ (i, r) :: irows₂) acc =
        assembleGo fb hostOff off (irows₁ ++ irows₂) acc) ∧
    (∀ (fb : String → Option ℤ) (hostOff off : ℤ) (rows : List Row),
      (parseStatement fb hostOff off rows).transactions = [] →
      (parseStatement fb hostOff off rows).periodFrom = none ∧
      (parseStatement fb hostOff off rows).periodTo = none ∧
      (parseStatement fb hostOff off rows).dailySpending = [] ∧
      (parseStatement fb hostOff off rows).timeline = [] ∧
      (parseStatement fb hostOff off rows).dailyCum = []) := by
  constructor
  · intro fb hostOff off i r irows₁ irows₂ acc hbad
    have hnone : processRow fb hostOff off i r = none :=
      (processRow_none_iff fb hostOff off i r).2 hbad
    rw [assembleGo_eq_filterMap, assembleGo_eq_filterMap]
    simp [List.filterMap_append, List.filterMap_cons, hnone]
  · intro fb hostOff off rows hempty
    unfold parseStatement at *
    cases htx : assemble fb hostOff off rows with
    | nil =>
        rw [htx] at *
        simp [parseOutAux, periodFrom, periodTo, dailySpendingOf]
    | cons t ts =>
        rw [htx] at hempty
        exfalso
        unfold parseOutAux at hempty
        cases hfo : periodFrom (t :: ts) with
        | none =>
            unfold periodFrom at hfo
            simp at hfo
        | some a =>
            cases hto : periodTo (t :: ts) with
            | none =>
                unfold periodTo at hto
                simp at hto
            | some b =>
                rw [hfo, hto] at hempty
                simp at hempty

/-- C2 (corrected): every emitted Transaction satisfies
`amount = credit - debit` and `direction = debit ↔ amount < 0`, and `credit`
and `debit` are never both zero; `credit`/`debit` equal the parsed income
and expense magnitudes (parse failures as zero), hence they are non-negative
whenever those parsed magnitudes are non-negative — but a cell that parses
to a negative number is passed through unclamped (see the counterexample). -/
theorem c2_transaction_invariants (fb : String → Option ℤ) (hostOff off : ℤ) (i : ℕ)
    (r : Row) (txn : Txn) (h : processRow fb hostOff off i r = some txn) :
    txn.amount = txn.credit - txn.debit ∧
    (txn.direction = Direction.debit ↔ txn.amount < 0) ∧
    ¬(txn.credit = 0 ∧ txn.debit = 0) ∧
    txn.credit = jsOr0 (parseKgsNumber (pick r colsDebitIsIncome)) ∧
    txn.debit = jsOr0 (parseKgsNumber (pick r colsCreditIsExpense)) ∧
    (0 ≤ jsOr0 (parseKgsNumber (pick r colsDebitIsIncome)) → 0 ≤ txn.credit) ∧
    (0 ≤ jsOr0 (parseKgsNumber (pick r colsCreditIsExpense)) → 0 ≤ txn.debit) := by
  unfold processRow at h
  cases hb : buildTsISO fb (pick r colsDate) (pick r colsTime) i off with
  | none => rw [hb] at h; cases h
  | some ts =>
      rw [hb] at h
      by_cases hcond : jsOr0 (parseKgsNumber (pick r colsDebitIsIncome)) ≤ 0 ∧
          jsOr0 (parseKgsNumber (pick r colsCreditIsExpense)) ≤ 0
      · simp only [if_pos hcond] at h
        cases h
      · simp only [if_neg hcond] at h
        have hfields := Option.some.inj h
        subst hfields
        refine ⟨rfl, ?_, ?_, rfl, rfl, fun hh => hh, fun hh => hh⟩
        · by_cases hneg : jsOr0 (parseKgsNumber (pick r colsDebitIsIncome)) -
              jsOr0 (parseKgsNumber (pick r colsCreditIsExpense)) < 0
          · simp [if_pos hneg, hneg]
          · simp [if_neg hneg, hneg]
        · rintro ⟨hc0, hd0⟩
          simp only at hc0 hd0
          exact hcond ⟨le_of_eq hc0, le_of_eq hd0⟩

theorem sum_amount_eq (txns : List Txn)
    (hamt : ∀ t ∈ txns, t.amount = t.credit - t.debit) :
    (txns.map (fun t => t.amount)).sum =
      (txns.map (fun t => t.credit)).sum - (txns.map (fun t => t.debit)).sum := by
  induction txns with
  | nil => simp
  | cons t ts ih =>
      simp only [List.map_cons, List.sum_cons]
      rw [hamt t (List.mem_cons_self t ts), ih (fun x hx => hamt x (List.mem_cons_of_mem t hx))]
      ring

/-- C3: the totals are the 2-decimal roundings of the per-transaction sums
of `credit` and `debit` (not of the daily buckets), `net` is the rounding
of their difference, `expenses` and `spending` both equal `debits`; and
whenever every transaction satisfies `amount = credit - debit` (which the
Assembler guarantees), the raw sum of `amount` agrees with `totals.net`
within 0.01. -/
theorem c3_totals_consistency (txns : List Txn) :
    totalsOf txns =
      { credits := round2 ((txns.map (fun t => t.credit)).sum)
        debits := round2 ((txns.map (fun t => t.debit)).sum)
        net := round2 ((txns.map (fun t => t.credit)).sum - (txns.map (fun t => t.debit)).sum)
        expenses := round2 ((txns.map (fun t => t.debit)).sum)
        spending := round2 ((txns.map (fun t => t.debit)).sum) } ∧
    (totalsOf txns).expenses = (totalsOf txns).debits ∧
    (totalsOf txns).spending = (totalsOf txns).debits ∧
    ((∀ t ∈ txns, t.amount = t.credit - t.debit) →
      |(txns.map (fun t => t.amount)).sum - (totalsOf txns).net| ≤ 1/100) := by
  have hchar : totalsOf txns =
      { credits := round2 ((txns.map (fun t => t.credit)).sum)
        debits := round2 ((txns.map (fun t => t.debit)).sum)
        net := round2 ((txns.map (fun t => t.credit)).sum - (txns.map (fun t => t.debit)).sum)
        expenses := round2 ((txns.map (fun t => t.debit)).sum)
        spending := round2 ((txns.map (fun t => t.debit)).sum) } := by
    unfold totalsOf
    rw [foldl_add_eq_sum, foldl_add_eq_sum]
    simp
  refine ⟨hchar, by rw [hchar], by rw [hchar], ?_⟩
  intro hamt
  have hsum := sum_amount_eq txns hamt
  rw [hchar, hsum]
  have := abs_round2_sub_le
    ((txns.map (fun t => t.credit)).sum - (txns.map (fun t => t.debit)).sum)
  rw [abs_sub_comm] at this
  calc |((txns.map (fun t => t.credit)).sum - (txns.map (fun t => t.debit)).sum) -
        round2 ((txns.map (fun t => t.credit)).sum - (txns.map (fun t => t.debit)).sum)|
      ≤ 1/200 := this
    _ ≤ 1/100 := by norm_num

/-- C4: `buildCumulativeTimeline` stable-sorts the transactions ascending
by `ts` (ties keep original row order) and emits one point per transaction
in sorted order; the k-th point carries the 2-decimal rounding of the exact
running sum of the first k+1 sorted amounts (the accumulator itself is
never rounded between steps). -/
theorem c4_cumulative_timeline (l : List TP) :
    buildCumulativeTimeline l =
      (List.range l.length).map (fun k =>
        { ts := ((sortByTs l).getD k default).ts,
          cumulative := round2 ((((sortByTs l).take (k + 1)).map (fun t => t.amount)).sum) }) ∧
    (sortByTs l).Perm l ∧
    (sortByTs l).Pairwise (fun a b => a.ts ≤ b.ts) ∧
    (sortPairs l.enum).Pairwise
      (fun x y => x.2.ts < y.2.ts ∨ (x.2.ts = y.2.ts ∧ x.1 < y.1)) ∧
    sortByTs l = (sortPairs l.enum).map Prod.snd := by
  refine ⟨?_, ?_, ?_, sortPairs_stable l, rfl⟩
  · unfold buildCumulativeTimeline
    rw [cumGo_eq]
    have hlen : (sortByTs l).length = l.length := by
      unfold sortByTs
      rw [List.length_map, (sortPairs_perm l.enum).length_eq, List.enum_length]
    rw [hlen]
    refine List.map_congr_left ?_
    intro k hk
    rw [zero_add]
  · unfold sortByTs
    have h1 := (sortPairs_perm l.enum).map Prod.snd
    rw [List.enum_map_snd] at h1
    exact h1
  · unfold sortByTs
    rw [List.pairwise_map]
    refine (sortPairs_sorted l.enum).imp ?_
    intro a b hab
    unfold tsLexLe at hab
    simp only [decide_eq_true_eq] at hab
    rcases hab with h | ⟨h, _⟩
    · exact le_of_lt h
    · exact le_of_eq h

/-- C6: the Amount Parser trims, returns NaN on an emptied string, strips
internal whitespace, and — when the result ends in a comma followed by 1-2
digits — removes all dots and turns that trailing comma into a dot before
parsing (the source replaces the FIRST comma, which is observationally the
same, see `jsNumber_replaceFirst_eq_replaceLast`); otherwise it parses the
literal as-is.  A numeric cell passes through unchanged.  The four spec
examples evaluate as stated. -/
theorem c6_amount_parsing :
    (∀ s : String, jsTrim s ≠ "" → endsCommaDec (stripWs (jsTrim s)) = true →
      parseKgsNumber (some (Cell.str s)) =
        jsNumber (replaceLastComma (removeDots (stripWs (jsTrim s))))) ∧
    (∀ s : String, jsTrim s ≠ "" → endsCommaDec (stripWs (jsTrim s)) = false →
      parseKgsNumber (some (Cell.str s)) = jsNumber (stripWs (jsTrim s))) ∧
    (∀ s : String, jsTrim s = "" → parseKgsNumber (some (Cell.str s)) = none) ∧
    (∀ q : ℚ, parseKgsNumber (some (Cell.num q)) = some q) ∧
    parseKgsNumber (some (Cell.str "1 234,56")) = some (1234.56 : ℚ) ∧
    parseKgsNumber (some (Cell.str "1.234,56")) = some (1234.56 : ℚ) ∧
    parseKgsNumber (some (Cell.str "1234.56")) = some (1234.56 : ℚ) ∧
    parseKgsNumber (some (Cell.str "abc")) = none := by
  refine ⟨?_, ?_, ?_, fun q => rfl, ?_, ?_, ?_, ?_⟩
  · intro s hne hcd
    show parseKgsString s = _
    unfold parseKgsString
    rw [if_neg hne, if_pos hcd]
    exact jsNumber_replaceFirst_eq_replaceLast _
      (mem_removeDots _ (endsCommaDec_mem _ hcd))
  · intro s hne hcd
    show parseKgsString s = _
    unfold parseKgsString
    rw [if_neg hne, if_neg (by rw [hcd]; exact Bool.false_ne_true)]
  · intro s he
    show parseKgsString s = _
    unfold parseKgsString
    rw [if_pos he]
  · simp [parseKgsNumber, parseKgsString, jsTrim, stripWs, endsCommaDec, endsCommaDecAux,
      removeDots, replaceFirstComma, rfca_cons, rfca_nil, jsNumber, jsNumberAux, jsNumUnsigned,
      jsNumTail, digitsToNat]
    norm_num
  · simp [parseKgsNumber, parseKgsString, jsTrim, stripWs, endsCommaDec, endsCommaDecAux,
      removeDots, replaceFirstComma, rfca_cons, rfca_nil, jsNumber, jsNumberAux, jsNumUnsigned,
      jsNumTail, digitsToNat]
    norm_num
  · simp [parseKgsNumber, parseKgsString, jsTrim, stripWs, endsCommaDec, endsCommaDecAux,
      removeDots, replaceFirstComma, rfca_cons, rfca_nil, jsNumber, jsNumberAux, jsNumUnsigned,
      jsNumTail, digitsToNat]
    norm_num
  · simp [parseKgsNumber, parseKgsString, jsTrim, stripWs, endsCommaDec, endsCommaDecAux,
      removeDots, replaceFirstComma, rfca_cons, rfca_nil, jsNumber, jsNumberAux, jsNumUnsigned,
      jsNumTail, digitsToNat]

/-- C7: for a row whose date cell is a date-only string (no combined
date-time format matches, a date-only format yields calendar day `day`) and
whose time cell is absent or unparseable, the reconstructor synthesizes the
deterministic placeholder time `(9 + rowIndex mod 9):00:00` on that
calendar day in the configured zone: the produced instant's zone-day is
`day` and its zone time-of-day is exactly that many hours; the synthesized
hour depends only on the row index. -/
theorem c7_synthesized_placeholder_time (fb : String → Option ℤ) (s : String)
    (timeRaw : Option Cell) (i : ℕ) (off day : ℤ)
    (hcomb : tryCombined (jsTrim s).data off = none)
    (hdate : tryDateOnly (jsTrim s).data = some day)
    (htime : timePresent timeRaw = false ∨ normalizeTimeOpt timeRaw = none) :
    buildTsISO fb (some (Cell.str s)) timeRaw i off =
      some (mkMs day ((9 + ((i % 9 : ℕ) : ℤ)) * 3600000) off) ∧
    zoneDay (mkMs day ((9 + ((i % 9 : ℕ) : ℤ)) * 3600000) off) off = day ∧
    zoneTod (mkMs day ((9 + ((i % 9 : ℕ) : ℤ)) * 3600000) off) off =
      (9 + ((i % 9 : ℕ) : ℤ)) * 3600000 := by
  have hmod : ((i % 9 : ℕ) : ℤ) ≤ 8 := by
    have := Nat.mod_lt i (by norm_num : 0 < 9)
    omega
  have hmod0 : (0 : ℤ) ≤ ((i % 9 : ℕ) : ℤ) := Int.ofNat_nonneg _
  have h0 : (0 : ℤ) ≤ (9 + ((i % 9 : ℕ) : ℤ)) * 3600000 := by omega
  have h1 : (9 + ((i % 9 : ℕ) : ℤ)) * 3600000 < msPerDay := by
    unfold msPerDay
    omega
  refine ⟨?_, zoneDay_mkMs _ _ _ h0 h1, zoneTod_mkMs _ _ _ h0 h1⟩
  have htp : (if timePresent timeRaw then normalizeTimeOpt timeRaw else none)
      = (none : Option TimeTriple) := by
    rcases htime with h | h
    · rw [if_neg (by rw [h]; exact Bool.false_ne_true)]
    · by_cases hp : timePresent timeRaw
      · rw [if_pos hp, h]
      · rw [if_neg hp]
  have hvalid : validTime ⟨9 + ((i % 9 : ℕ) : ℤ), 0, 0⟩ = true := by
    unfold validTime
    simp only [decide_eq_true_eq]
    omega
  unfold buildTsISO
  simp only [hcomb, hdate, htp]
  unfold composeDayTime
  rw [if_pos hvalid]
  rw [Option.some.injEq]
  unfold timeMs mkMs
  ring

/-- C1 (corrected): the Daily Aggregator emits exactly one bucket per
calendar day from `from` to `to` inclusive (and an empty list when no
transactions survive, with a null period).  Each bucket accumulates, over
the transactions whose `date` field is that day, the POSITIVE amounts into
`credit` and the absolute values of the NEGATIVE amounts into `debit` (not
the transactions' `credit`/`debit` fields — these coincide only when one of
the two is zero); `net` is the rounding of the exact accumulated
credit-minus-debit and `amount` mirrors the rounded debit. -/
theorem c1_daily_buckets :
    (∀ (txns : List Txn) (f t : ℤ),
      dailySpendingOf txns (some f) (some t) =
        (dayRange f t).map (fun d =>
          { date := d, credit := round2 (dayCredit txns d), debit := round2 (dayDebit txns d),
            net := round2 (dayCredit txns d - dayDebit txns d),
            amount := round2 (dayDebit txns d) })) ∧
    (∀ (txns : List Txn) (f t : ℤ),
      (dailySpendingOf txns (some f) (some t)).length = (t + 1 - f).toNat) ∧
    periodFrom ([] : List Txn) = none ∧ periodTo ([] : List Txn) = none ∧
    dailySpendingOf [] none none = [] := by
  have hmain : ∀ (txns : List Txn) (f t : ℤ),
      dailySpendingOf txns (some f) (some t) =
        (dayRange f t).map (fun d =>
          { date := d, credit := round2 (dayCredit txns d), debit := round2 (dayDebit txns d),
            net := round2 (dayCredit txns d - dayDebit txns d),
            amount := round2 (dayDebit txns d) }) := by
    intro txns f t
    unfold dailySpendingOf
    refine List.map_congr_left ?_
    intro d hd
    unfold mkBucket
    rw [byDay_char]
  refine ⟨hmain, ?_, rfl, rfl, rfl⟩
  intro txns f t
  rw [hmain, List.length_map]
  unfold dayRange
  exact length_dayRangeAux _ _

/-! ## Concrete evaluations (counterexamples, code-bug exhibits, witnesses) -/

set_option maxRecDepth 8000 in
set_option maxHeartbeats 2000000 in
/-- C1 counterexample: a row with both an income (`Debit` = 500) and an
expense (`Credit` = 200) cell yields one transaction with `credit = 500`,
`debit = 200`, `amount = 300`; its daily bucket holds `credit = 300`,
`debit = 0` — NOT the per-transaction `credit`/`debit` sums (500 and 200) —
so the claim that each transaction's credit and debit are added into its
day's bucket is false on the code. -/
theorem c1_counterexample :
    (parseStatement (fun _ => none) 360 360
        [[("Дата", Cell.str "01.01.2025"), ("Debit", Cell.str "500"),
          ("Credit", Cell.str "200")]]).transactions =
      [{ ts := 1735700400000, dateF := 20089, description := "", amount := 300,
         credit := 500, debit := 200, direction := Direction.credit }] ∧
    (parseStatement (fun _ => none) 360 360
        [[("Дата", Cell.str "01.01.2025"), ("Debit", Cell.str "500"),
          ("Credit", Cell.str "200")]]).dailySpending =
      [{ date := 20089, credit := 300, debit := 0, net := 300, amount := 0 }] ∧
    round2 (([Txn.mk 1735700400000 20089 "" 300 500 200 Direction.credit].map
          (fun t => t.credit)).sum) = 500 ∧
    round2 (([Txn.mk 1735700400000 20089 "" 300 500 200 Direction.credit].map
          (fun t => t.debit)).sum) = 200 ∧
    (300 : ℚ) ≠ 500 ∧ (0 : ℚ) ≠ 200 := by
  have htx : assemble (fun _ => none) 360 360
      [[("Дата", Cell.str "01.01.2025"), ("Debit", Cell.str "500"),
        ("Credit", Cell.str "200")]] =
      [Txn.mk 1735700400000 20089 "" 300 500 200 Direction.credit] := by
    simp [assemble, assembleGo, processRow, buildTsISO, pick,
      normHeader, jsLower, jsLowerChar, jsTrim, colsDate, colsTime, colsDebitIsIncome,
      colsCreditIsExpense, colsDesc, tryCombined, tryDateOnly, splitAtSpace, fmtDdLLyyyy,
      fmtDLyyyy, fmtYyyyLLdd, fmtHHmmss, fmtHHmm, mkDateValid, num2, num4, d1, daysInMonth,
      civilToDays, isLeap, validTime, timeMs, mkMs, msPerDay, composeDayTime, parseKgsNumber,
      parseKgsString, stripWs, endsCommaDec, endsCommaDecAux, removeDots, replaceFirstComma,
      rfca_cons, rfca_nil, jsNumber, jsNumberAux, jsNumUnsigned, jsNumTail, digitsToNat, jsOr0,
      timePresent, normalizeTimeOpt, normalizeTimeFromAny, parseTimeChars, descOf, cellToString,
      collapseBS, zoneDay, zoneTod]
    norm_num
  refine ⟨?_, ?_, ?_, ?_, by norm_num, by norm_num⟩
  · rw [parseStatement_transactions, htx]
  · unfold parseStatement
    rw [htx, parseOutAux_dailySpending]
    simp [periodFrom, periodTo, List.min?, List.max?, dailySpendingOf, dayRange,
      dayRangeAux_succ, dayRangeAux_zero, mkBucket, byDay, byDayStep, round2]
    norm_num
  · simp [round2]
    norm_num
  · simp [round2]
    norm_num

set_option maxRecDepth 8000 in
set_option maxHeartbeats 2000000 in
/-- C2 counterexample: an income cell holding the literal `-100` parses to
a negative number, is not clamped, and — since the expense magnitude 200 is
positive — the row is kept, emitting a transaction with `credit = -100 < 0`:
the claimed non-negativity of `credit`/`debit` fails on the code. -/
theorem c2_counterexample :
    (parseStatement (fun _ => none) 360 360
        [[("Дата", Cell.str "01.01.2025"), ("Debit", Cell.str "-100"),
          ("Credit", Cell.str "200")]]).transactions =
      [{ ts := 1735700400000, dateF := 20089, description := "", amount := -300,
         credit := -100, debit := 200, direction := Direction.debit }] ∧
    ¬(0 ≤ (-100 : ℚ)) := by
  refine ⟨?_, by norm_num⟩
  rw [parseStatement_transactions]
  simp [assemble, assembleGo, processRow, buildTsISO, pick,
    normHeader, jsLower, jsLowerChar, jsTrim, colsDate, colsTime, colsDebitIsIncome,
    colsCreditIsExpense, colsDesc, tryCombined, tryDateOnly, splitAtSpace, fmtDdLLyyyy, fmtDLyyyy,
    fmtYyyyLLdd, fmtHHmmss, fmtHHmm, mkDateValid, num2, num4, d1, daysInMonth, civilToDays,
    isLeap, validTime, timeMs, mkMs, msPerDay, composeDayTime, parseKgsNumber, parseKgsString,
    stripWs, endsCommaDec, endsCommaDecAux, removeDots, replaceFirstComma, rfca_cons, rfca_nil,
    jsNumber, jsNumberAux, jsNumUnsigned, jsNumTail, digitsToNat, jsOr0, timePresent,
    normalizeTimeOpt, normalizeTimeFromAny, parseTimeChars, descOf, cellToString, collapseBS,
    zoneDay, zoneTod]
  norm_num

set_option maxRecDepth 8000 in
set_option maxHeartbeats 4000000 in
/-- C5 code-bug exhibit: with the Node host in UTC (offset 0) and two rows
— 2025-01-01 10:00 (+100) and 2025-01-02 02:00 (+50), both in the configured
UTC+6 zone — both transactions get `date` field 2025-01-01 (day 20089), so
the single daily bucket has `net = 150`, while the daily close (computed at
the configured zone's end of day) absorbs only the first transaction:
`cumulativeClose = 100`.  `|150 - (100 - 0)| = 50 > 0.01`, and the last
close (100) differs from the last timeline point (150). -/
theorem c5_daily_close_consistency_bug :
    (parseStatement (fun _ => none) 0 360
        [[("Дата", Cell.str "01.01.2025 10:00"), ("Debit", Cell.str "100")],
         [("Дата", Cell.str "02.01.2025 02:00"), ("Debit", Cell.str "50")]]).dailySpending =
      [{ date := 20089, credit := 150, debit := 0, net := 150, amount := 0 }] ∧
    (parseStatement (fun _ => none) 0 360
        [[("Дата", Cell.str "01.01.2025 10:00"), ("Debit", Cell.str "100")],
         [("Дата", Cell.str "02.01.2025 02:00"), ("Debit", Cell.str "50")]]).dailyCum =
      [{ date := 20089, cumulativeClose := 100 }] ∧
    ¬(|(150 : ℚ) - (100 - 0)| ≤ 1/100) ∧
    ((parseStatement (fun _ => none) 0 360
        [[("Дата", Cell.str "01.01.2025 10:00"), ("Debit", Cell.str "100")],
         [("Дата", Cell.str "02.01.2025 02:00"), ("Debit", Cell.str "50")]]).timeline.map
      (fun p => p.cumulative)).getLast? = some 150 ∧
    (100 : ℚ) ≠ 150 := by
  have htx : assemble (fun _ => none) 0 360
      [[("Дата", Cell.str "01.01.2025 10:00"), ("Debit", Cell.str "100")],
       [("Дата", Cell.str "02.01.2025 02:00"), ("Debit", Cell.str "50")]] =
      [Txn.mk 1735704000000 20089 "" 100 100 0 Direction.credit,
       Txn.mk 1735761600000 20089 "" 50 50 0 Direction.credit] := by
    simp [assemble, assembleGo, processRow, buildTsISO, pick,
      normHeader, jsLower, jsLowerChar, jsTrim, colsDate, colsTime, colsDebitIsIncome,
      colsCreditIsExpense, colsDesc, tryCombined, tryDateOnly, splitAtSpace, fmtDdLLyyyy,
      fmtDLyyyy, fmtYyyyLLdd, fmtHHmmss, fmtHHmm, mkDateValid, num2, num4, d1, daysInMonth,
      civilToDays, isLeap, validTime, timeMs, mkMs, msPerDay, composeDayTime, parseKgsNumber,
      parseKgsString, stripWs, endsCommaDec, endsCommaDecAux, removeDots, replaceFirstComma,
      rfca_cons, rfca_nil, jsNumber, jsNumberAux, jsNumUnsigned, jsNumTail, digitsToNat, jsOr0,
      timePresent, normalizeTimeOpt, normalizeTimeFromAny, parseTimeChars, descOf, cellToString,
      collapseBS, zoneDay, zoneTod]
    norm_num
  have hfo : periodFrom [Txn.mk 1735704000000 20089 "" 100 100 0 Direction.credit,
      Txn.mk 1735761600000 20089 "" 50 50 0 Direction.credit] = some 20089 := by
    simp [periodFrom, List.min?]
  have hto : periodTo [Txn.mk 1735704000000 20089 "" 100 100 0 Direction.credit,
      Txn.mk 1735761600000 20089 "" 50 50 0 Direction.credit] = some 20089 := by
    simp [periodTo, List.max?]
  refine ⟨?_, ?_, by rw [abs_le]; norm_num, ?_, by norm_num⟩
  · unfold parseStatement
    rw [htx, parseOutAux_dailySpending, hfo, hto]
    simp [dailySpendingOf, dayRange, dayRangeAux_succ, dayRangeAux_zero, mkBucket, byDay,
      byDayStep, round2]
    norm_num
  · unfold parseStatement
    rw [htx, parseOutAux_dailyCum _ _ _ _ _ hfo hto]
    simp [attachDailyCumulativeClose, sortByTs, sortPairs, insertTs, tsLexLe, dayRange,
      dayRangeAux_succ, dayRangeAux_zero, sweep, dayEndMs, msPerDay, round2]
    norm_num
  · unfold parseStatement
    rw [htx, parseOutAux_timeline _ _ _ _ _ hfo hto]
    simp [buildCumulativeTimeline, sortByTs, sortPairs, insertTs, tsLexLe, cumGo, round2]
    norm_num

set_option maxRecDepth 8000 in
set_option maxHeartbeats 2000000 in
/-- C8 code-bug exhibit: the `date` field is rendered with host-local
`Date` accessors.  The same row (2025-01-02 02:00 in the configured UTC+6
zone, instant 1735761600000) gets `date` = 2025-01-02 (day 20090) when the
host offset is +360 but `date` = 2025-01-01 (day 20089) when the host runs
UTC, while the calendar day of `ts` in the configured zone is 20090 — the
claimed host-independence fails on the code. -/
theorem c8_date_field_host_zone_bug :
    (parseStatement (fun _ => none) 360 360
        [[("Дата", Cell.str "02.01.2025 02:00"), ("Debit", Cell.str "50")]]).transactions =
      [{ ts := 1735761600000, dateF := 20090, description := "", amount := 50,
         credit := 50, debit := 0, direction := Direction.credit }] ∧
    (parseStatement (fun _ => none) 0 360
        [[("Дата", Cell.str "02.01.2025 02:00"), ("Debit", Cell.str "50")]]).transactions =
      [{ ts := 1735761600000, dateF := 20089, description := "", amount := 50,
         credit := 50, debit := 0, direction := Direction.credit }] ∧
    zoneDay 1735761600000 360 = 20090 ∧ (20089 : ℤ) ≠ 20090 := by
  refine ⟨?_, ?_, by norm_num [zoneDay, msPerDay], by norm_num⟩ <;>
  · rw [parseStatement_transactions]
    simp [assemble, assembleGo, processRow, buildTsISO, pick,
      normHeader, jsLower, jsLowerChar, jsTrim, colsDate, colsTime, colsDebitIsIncome,
      colsCreditIsExpense, colsDesc, tryCombined, tryDateOnly, splitAtSpace, fmtDdLLyyyy, fmtDLyyyy,
      fmtYyyyLLdd, fmtHHmmss, fmtHHmm, mkDateValid, num2, num4, d1, daysInMonth, civilToDays,
      isLeap, validTime, timeMs, mkMs, msPerDay, composeDayTime, parseKgsNumber, parseKgsString,
      stripWs, endsCommaDec, endsCommaDecAux, removeDots, replaceFirstComma, rfca_cons, rfca_nil,
      jsNumber, jsNumberAux, jsNumUnsigned, jsNumTail, digitsToNat, jsOr0, timePresent,
      normalizeTimeOpt, normalizeTimeFromAny, parseTimeChars, descOf, cellToString, collapseBS,
      zoneDay, zoneTod]
    norm_num

set_option maxRecDepth 8000 in
set_option maxHeartbeats 2000000 in
/-- Witness for C2: the invariants instantiated on the transaction emitted
for a concrete income-only row. -/
theorem c2_transaction_invariants_witness :
    (Txn.mk 1735700400000 20089 "" 500 500 0 Direction.credit).amount =
      (Txn.mk 1735700400000 20089 "" 500 500 0 Direction.credit).credit -
      (Txn.mk 1735700400000 20089 "" 500 500 0 Direction.credit).debit ∧
    ((Txn.mk 1735700400000 20089 "" 500 500 0 Direction.credit).direction = Direction.debit ↔
      (Txn.mk 1735700400000 20089 "" 500 500 0 Direction.credit).amount < 0) ∧
    ¬((Txn.mk 1735700400000 20089 "" 500 500 0 Direction.credit).credit = 0 ∧
      (Txn.mk 1735700400000 20089 "" 500 500 0 Direction.credit).debit = 0) ∧
    (Txn.mk 1735700400000 20089 "" 500 500 0 Direction.credit).credit =
      jsOr0 (parseKgsNumber (pick [("Дата", Cell.str "01.01.2025"), ("Debit", Cell.str "500")]
        colsDebitIsIncome)) ∧
    (Txn.mk 1735700400000 20089 "" 500 500 0 Direction.credit).debit =
      jsOr0 (parseKgsNumber (pick [("Дата", Cell.str "01.01.2025"), ("Debit", Cell.str "500")]
        colsCreditIsExpense)) ∧
    (0 ≤ jsOr0 (parseKgsNumber (pick [("Дата", Cell.str "01.01.2025"), ("Debit", Cell.str "500")]
        colsDebitIsIncome)) →
      0 ≤ (Txn.mk 1735700400000 20089 "" 500 500 0 Direction.credit).credit) ∧
    (0 ≤ jsOr0 (parseKgsNumber (pick [("Дата", Cell.str "01.01.2025"), ("Debit", Cell.str "500")]
        colsCreditIsExpense)) →
      0 ≤ (Txn.mk 1735700400000 20089 "" 500 500 0 Direction.credit).debit) := by
  refine c2_transaction_invariants (fun _ => none) 360 360 0
    [("Дата", Cell.str "01.01.2025"), ("Debit", Cell.str "500")]
    (Txn.mk 1735700400000 20089 "" 500 500 0 Direction.credit) ?_
  simp [processRow, buildTsISO, pick, normHeader, jsLower, jsLowerChar, jsTrim, colsDate,
    colsTime, colsDebitIsIncome, colsCreditIsExpense, colsDesc, tryCombined, tryDateOnly,
    splitAtSpace, fmtDdLLyyyy, fmtDLyyyy, fmtYyyyLLdd, fmtHHmmss, fmtHHmm, mkDateValid, num2,
    num4, d1, daysInMonth, civilToDays, isLeap, validTime, timeMs, mkMs, msPerDay,
    composeDayTime, parseKgsNumber, parseKgsString, stripWs, endsCommaDec, endsCommaDecAux,
    removeDots, replaceFirstComma, rfca_cons, rfca_nil, jsNumber, jsNumberAux, jsNumUnsigned,
    jsNumTail, digitsToNat, jsOr0, timePresent, normalizeTimeOpt, normalizeTimeFromAny,
    parseTimeChars, descOf, cellToString, collapseBS, zoneDay, zoneTod]

/-- Witness for C3: the amount-sum/net tolerance instantiated on a concrete
one-transaction list with `amount = credit - debit`. -/
theorem c3_totals_consistency_witness :
    |(([Txn.mk 0 0 "" 5 7 2 Direction.credit] : List Txn).map (fun t => t.amount)).sum -
      (totalsOf [Txn.mk 0 0 "" 5 7 2 Direction.credit]).net| ≤ 1/100 := by
  refine (c3_totals_consistency [Txn.mk 0 0 "" 5 7 2 Direction.credit]).2.2.2 ?_
  intro t ht
  simp only [List.mem_singleton] at ht
  subst ht
  norm_num

set_option maxRecDepth 4000 in
/-- Witness for C6: the comma-decimal rule instantiated on a concrete
string with both a dot and a trailing comma group. -/
theorem c6_amount_parsing_witness :
    parseKgsNumber (some (Cell.str " 1.2,3 ")) =
      jsNumber (replaceLastComma (removeDots (stripWs (jsTrim " 1.2,3 ")))) := by
  refine c6_amount_parsing.1 " 1.2,3 " ?_ ?_
  · simp [jsTrim]
  · simp [jsTrim, stripWs, endsCommaDec, endsCommaDecAux]

set_option maxRecDepth 4000 in
/-- Witness for C7: the placeholder time instantiated on the date-only
string `05.01.2025` at row index 12 (synthesized hour 9 + 12 mod 9 = 12). -/
theorem c7_synthesized_placeholder_time_witness :
    buildTsISO (fun _ => none) (some (Cell.str "05.01.2025")) none 12 360 =
      some (mkMs 20093 ((9 + ((12 % 9 : ℕ) : ℤ)) * 3600000) 360) ∧
    zoneDay (mkMs 20093 ((9 + ((12 % 9 : ℕ) : ℤ)) * 3600000) 360) 360 = 20093 ∧
    zoneTod (mkMs 20093 ((9 + ((12 % 9 : ℕ) : ℤ)) * 3600000) 360) 360 =
      (9 + ((12 % 9 : ℕ) : ℤ)) * 3600000 := by
  refine c7_synthesized_placeholder_time (fun _ => none) "05.01.2025" none 12 360 20093 ?_ ?_
    (Or.inl rfl)
  · simp [jsTrim, tryCombined, splitAtSpace]
  · simp [jsTrim, tryDateOnly, fmtDdLLyyyy, fmtDLyyyy, fmtYyyyLLdd, mkDateValid, num2, num4, d1,
      daysInMonth, civilToDays, isLeap]

set_option maxRecDepth 8000 in
set_option maxHeartbeats 2000000 in
/-- Witness for C9: a row with an unparseable date is dropped from the loop
without disturbing the remaining rows, and a statement consisting only of
that row yields the null period and empty series. -/
theorem c9_skipped_rows_and_empty_result_witness :
    assembleGo (fun _ => none) 360 360
        ([] ++ (0, [("Дата", Cell.str "xx")]) :: [(1, [("Дата", Cell.str "01.01.2025"),
          ("Debit", Cell.str "500")])]) [] =
      assembleGo (fun _ => none) 360 360
        ([] ++ [(1, [("Дата", Cell.str "01.01.2025"), ("Debit", Cell.str "500")])]) [] ∧
    ((parseStatement (fun _ => none) 360 360 [[("Дата", Cell.str "xx")]]).periodFrom = none ∧
     (parseStatement (fun _ => none) 360 360 [[("Дата", Cell.str "xx")]]).periodTo = none ∧
     (parseStatement (fun _ => none) 360 360 [[("Дата", Cell.str "xx")]]).dailySpending = [] ∧
     (parseStatement (fun _ => none) 360 360 [[("Дата", Cell.str "xx")]]).timeline = [] ∧
     (parseStatement (fun _ => none) 360 360 [[("Дата", Cell.str "xx")]]).dailyCum = []) := by
  constructor
  · refine c9_skipped_rows_and_empty_result.1 (fun _ => none) 360 360 0
      [("Дата", Cell.str "xx")] [] _ [] (Or.inl ?_)
    simp [buildTsISO, pick, normHeader, jsLower, jsLowerChar, jsTrim, colsDate, colsTime,
      tryCombined, tryDateOnly, splitAtSpace, fmtDdLLyyyy, fmtDLyyyy, fmtYyyyLLdd, fmtHHmmss,
      fmtHHmm, mkDateValid, num2, num4, d1, daysInMonth, civilToDays, isLeap]
  · refine c9_skipped_rows_and_empty_result.2 (fun _ => none) 360 360 [[("Дата", Cell.str "xx")]] ?_
    rw [parseStatement_transactions]
    simp [assemble, assembleGo, processRow, buildTsISO, pick, normHeader, jsLower, jsLowerChar,
      jsTrim, colsDate, colsTime, tryCombined, tryDateOnly, splitAtSpace, fmtDdLLyyyy, fmtDLyyyy,
      fmtYyyyLLdd, fmtHHmmss, fmtHHmm, mkDateValid, num2, num4, d1, daysInMonth, civilToDays,
      isLeap]

/-! ## Daily-close consistency when the host zone equals the configured zone

The C5/C8 divergence disappears when `ymd` renders in the configured
zone: with `hostOff = off` every bucket net matches the difference of
consecutive daily closes within 0.01 and the last close is the last
timeline point. -/

theorem sortByTs_perm (l : List TP) : (sortByTs l).Perm l := by
  unfold sortByTs
  have h1 := (sortPairs_perm l.enum).map Prod.snd
  rw [List.enum_map_snd] at h1
  exact h1

theorem sortByTs_sorted (l : List TP) :
    (sortByTs l).Pairwise (fun a b => a.ts ≤ b.ts) := by
  unfold sortByTs
  rw [List.pairwise_map]
  refine (sortPairs_sorted l.enum).imp ?_
  intro a b hab
  unfold tsLexLe at hab
  simp only [decide_eq_true_eq] at hab
  rcases hab with h | ⟨h, _⟩
  · exact le_of_lt h
  · exact le_of_eq h

theorem takeWhile_eq_filter_of_sorted (E : ℤ) (l : List TP)
    (h : l.Pairwise (fun a b => a.ts ≤ b.ts)) :
    l.takeWhile (fun t => decide (t.ts ≤ E)) = l.filter (fun t => decide (t.ts ≤ E)) ∧
    l.dropWhile (fun t => decide (t.ts ≤ E)) = l.filter (fun t => !decide (t.ts ≤ E)) := by
  induction l with
  | nil => exact ⟨rfl, rfl⟩
  | cons a rest ih =>
      rcases List.pairwise_cons.1 h with ⟨hhead, htail⟩
      rcases ih htail with ⟨ih1, ih2⟩
      by_cases ha : a.ts ≤ E
      · have hdec : decide (a.ts ≤ E) = true := decide_eq_true ha
        constructor
        · simp [List.takeWhile_cons, List.filter_cons, hdec, ih1]
        · simp [List.dropWhile_cons, List.filter_cons, hdec, ih2]
      · have hdec : decide (a.ts ≤ E) = false := decide_eq_false ha
        have hnil : rest.filter (fun t => decide (t.ts ≤ E)) = [] := by
          rw [List.filter_eq_nil]
          intro x hx
          have := hhead x hx
          simp only [decide_eq_true_eq]
          omega
        have hself : rest.filter (fun t => !decide (t.ts ≤ E)) = rest := by
          rw [List.filter_eq_self]
          intro x hx
          have := hhead x hx
          simp only [Bool.not_eq_true', decide_eq_false_iff_not]
          omega
        constructor
        · simp [List.takeWhile_cons, List.filter_cons, hdec, hnil]
        · simp [List.dropWhile_cons, List.filter_cons, hdec, hself]

theorem sum_filter_split {α : Type} (v : α → ℚ) (l : List α) (q p : α → Bool) :
    ((l.filter q).map v).sum =
      ((l.filter (fun x => q x && p x)).map v).sum +
      ((l.filter (fun x => q x && !p x)).map v).sum := by
  induction l with
  | nil => simp
  | cons a rest ih =>
      rw [List.filter_cons, List.filter_cons, List.filter_cons]
      cases hq : q a
      · simpa using ih
      · cases hp : p a
        · simp only [Bool.true_and, Bool.not_false, if_pos, if_neg, Bool.false_eq_true,
            not_false_iff, List.map_cons, List.sum_cons]
          rw [ih]
          ring
        · simp only [Bool.true_and, Bool.not_true, if_pos, if_neg, Bool.false_eq_true,
            not_false_iff, List.map_cons, List.sum_cons]
          rw [ih]
          ring

theorem dayEndMs_mono (d e off : ℤ) (h : d ≤ e) : dayEndMs d off ≤ dayEndMs e off := by
  unfold dayEndMs msPerDay
  nlinarith

theorem sweep_eq_map (off : ℤ) (days : List ℤ) (pending : List TP) (r : ℚ)
    (hp : pending.Pairwise (fun a b => a.ts ≤ b.ts))
    (hd : days.Pairwise (fun a b => a < b)) :
    sweep off days pending r = days.map (fun d =>
      { date := d,
        cumulativeClose := round2 (r +
          ((pending.filter (fun x => decide (x.ts ≤ dayEndMs d off))).map
            (fun x => x.amount)).sum) }) := by
  induction days generalizing pending r with
  | nil => rfl
  | cons d rest ih =>
      rcases List.pairwise_cons.1 hd with ⟨hdhead, hdtail⟩
      rcases takeWhile_eq_filter_of_sorted (dayEndMs d off) pending hp with ⟨h1, h2⟩
      simp only [sweep]
      rw [h1, h2, List.map_cons]
      congr 1
      rw [ih (pending.filter (fun t => !decide (t.ts ≤ dayEndMs d off)))
        (r + ((pending.filter (fun t => decide (t.ts ≤ dayEndMs d off))).map
          (fun x => x.amount)).sum) (hp.filter _) hdtail]
      refine List.map_congr_left ?_
      intro e he
      have hde : d < e := hdhead e he
      have hEE : dayEndMs d off ≤ dayEndMs e off := dayEndMs_mono d e off (le_of_lt hde)
      congr 1
      rw [List.filter_filter]
      have hsplit := sum_filter_split (fun x : TP => x.amount) pending
        (fun x => decide (x.ts ≤ dayEndMs e off)) (fun x => decide (x.ts ≤ dayEndMs d off))
      have hA : pending.filter
            (fun x => decide (x.ts ≤ dayEndMs e off) && decide (x.ts ≤ dayEndMs d off)) =
          pending.filter (fun x => decide (x.ts ≤ dayEndMs d off)) := by
        refine List.filter_congr ?_
        intro x _
        by_cases hx : x.ts ≤ dayEndMs d off
        · simp [hx, le_trans hx hEE]
        · simp [hx]
      rw [hA] at hsplit
      rw [hsplit]
      ring

theorem attachDaily_eq_map (a b : ℤ) (l : List TP) (off : ℤ) :
    attachDailyCumulativeClose a b l off =
      (dayRange a b).map (fun d =>
        { date := d, cumulativeClose := round2 (cumThrough l off d) }) := by
  unfold attachDailyCumulativeClose
  rw [sweep_eq_map off (dayRange a b) (sortByTs l) 0 (sortByTs_sorted l)
    (pairwise_lt_dayRangeAux a (b + 1 - a).toNat)]
  refine List.map_congr_left ?_
  intro d _
  congr 1
  rw [zero_add]
  unfold cumThrough
  exact congrArg round2
    (List.Perm.map (fun x : TP => x.amount)
      (List.Perm.filter _ (sortByTs_perm l))).sum_eq

theorem ts_le_dayEnd_iff (ts d off : ℤ) :
    ts ≤ dayEndMs d off ↔ zoneDay ts off ≤ d := by
  unfold dayEndMs zoneDay msPerDay
  omega

theorem cumThrough_txns (txns : List Txn) (off e : ℤ) :
    cumThrough (txns.map (fun t => TP.mk t.ts t.amount)) off e =
      ((txns.filter (fun t => decide (zoneDay t.ts off ≤ e))).map
        (fun t => t.amount)).sum := by
  induction txns with
  | nil => rfl
  | cons t rest ih =>
      unfold cumThrough at ih ⊢
      simp only [List.map_cons, List.filter_cons]
      by_cases hx : zoneDay t.ts off ≤ e
      · have h1 : decide ((TP.mk t.ts t.amount).ts ≤ dayEndMs e off) = true :=
          decide_eq_true ((ts_le_dayEnd_iff t.ts e off).2 hx)
        have h2 : decide (zoneDay t.ts off ≤ e) = true := decide_eq_true hx
        simp only [h1, h2, if_true, List.map_cons, List.sum_cons, ih]
      · have h1 : decide ((TP.mk t.ts t.amount).ts ≤ dayEndMs e off) = false :=
          decide_eq_false (fun hc => hx ((ts_le_dayEnd_iff t.ts e off).1 hc))
        have h2 : decide (zoneDay t.ts off ≤ e) = false := decide_eq_false hx
        simp only [h1, h2, if_false, Bool.false_eq_true, ih]

theorem sum_map_sub {α : Type} (l : List α) (f g : α → ℚ) :
    (l.map f).sum - (l.map g).sum = (l.map (fun x => f x - g x)).sum := by
  induction l with
  | nil => simp
  | cons a rest ih =>
      simp only [List.map_cons, List.sum_cons]
      rw [← ih]
      ring

theorem dayCredit_sub_dayDebit (txns : List Txn) (d : ℤ) :
    dayCredit txns d - dayDebit txns d =
      ((txns.filter (fun t => decide (t.dateF = d))).map (fun t => t.amount)).sum := by
  unfold dayCredit dayDebit
  rw [sum_map_sub]
  refine congrArg List.sum (List.map_congr_left ?_)
  intro t _
  rcases lt_trichotomy t.amount 0 with h | h | h
  · rw [if_neg (by linarith), if_pos h]
    ring
  · rw [h]
    norm_num
  · rw [if_pos h, if_neg (by linarith)]
    ring

theorem cumThrough_day_diff (txns : List Txn) (off d : ℤ)
    (hdate : ∀ x ∈ txns, x.dateF = zoneDay x.ts off) :
    cumThrough (txns.map (fun t => TP.mk t.ts t.amount)) off d -
      cumThrough (txns.map (fun t => TP.mk t.ts t.amount)) off (d - 1) =
    dayCredit txns d - dayDebit txns d := by
  rw [cumThrough_txns, cumThrough_txns, dayCredit_sub_dayDebit]
  have hsplit := sum_filter_split (fun t : Txn => t.amount) txns
    (fun t => decide (zoneDay t.ts off ≤ d)) (fun t => decide (zoneDay t.ts off ≤ d - 1))
  have hA : txns.filter
        (fun t => decide (zoneDay t.ts off ≤ d) && decide (zoneDay t.ts off ≤ d - 1)) =
      txns.filter (fun t => decide (zoneDay t.ts off ≤ d - 1)) := by
    refine List.filter_congr ?_
    intro t _
    by_cases hx : zoneDay t.ts off ≤ d - 1
    · simp [hx, show zoneDay t.ts off ≤ d by omega]
    · simp [hx]
  have hB : txns.filter
        (fun t => decide (zoneDay t.ts off ≤ d) && !decide (zoneDay t.ts off ≤ d - 1)) =
      txns.filter (fun t => decide (t.dateF = d)) := by
    refine List.filter_congr ?_
    intro t ht
    rw [hdate t ht]
    by_cases hx1 : zoneDay t.ts off ≤ d <;> by_cases hx2 : zoneDay t.ts off ≤ d - 1
    · simp [hx1, hx2, show zoneDay t.ts off ≠ d by omega]
    · simp [hx1, hx2, show zoneDay t.ts off = d by omega]
    · omega
    · simp [hx1, hx2, show zoneDay t.ts off ≠ d by omega]
  rw [hA, hB] at hsplit
  rw [hsplit]
  ring

theorem dayRangeAux_getLast? (a : ℤ) (n : ℕ) :
    (dayRangeAux a (n + 1)).getLast? = some (a + n) := by
  induction n generalizing a with
  | zero => simp [dayRangeAux]
  | succ k ih =>
      rw [dayRangeAux_succ, dayRangeAux_succ, List.getLast?_cons_cons,
        ← dayRangeAux_succ, ih (a + 1)]
      congr 1
      push_cast
      ring

theorem dayRange_getLast? (a b : ℤ) (h : a ≤ b) :
    (dayRange a b).getLast? = some b := by
  unfold dayRange
  have hn : (b + 1 - a).toNat = (b - a).toNat + 1 := by omega
  rw [hn, dayRangeAux_getLast?]
  congr 1
  omega

theorem cumGo_getLast?_cumulative (l : List TP) (r : ℚ) (h : l ≠ []) :
    ((cumGo r l).map (fun p => p.cumulative)).getLast? =
      some (round2 (r + (l.map (fun t => t.amount)).sum)) := by
  induction l generalizing r with
  | nil => exact absurd rfl h
  | cons t rest ih =>
      by_cases hr : rest = []
      · subst hr
        simp [cumGo]
      · obtain ⟨s, rest', rfl⟩ := List.exists_cons_of_ne_nil hr
        rw [cumGo, cumGo, List.map_cons, List.map_cons, List.getLast?_cons_cons,
          ← List.map_cons, ← cumGo, ih (r + t.amount) hr]
        congr 2
        simp only [List.map_cons, List.sum_cons]
        ring

theorem timeline_getLast? (l : List TP) (h : l ≠ []) :
    ((buildCumulativeTimeline l).map (fun p => p.cumulative)).getLast? =
      some (round2 ((l.map (fun t => t.amount)).sum)) := by
  unfold buildCumulativeTimeline
  have hs : sortByTs l ≠ [] := by
    intro hc
    have hlen := (sortByTs_perm l).length_eq
    rw [hc] at hlen
    exact h (List.length_eq_zero.1 hlen.symm)
  rw [cumGo_getLast?_cumulative _ _ hs, zero_add]
  congr 2
  exact ((sortByTs_perm l).map _).sum_eq

theorem periodFrom_spec (txns : List Txn) (a : ℤ) (h : periodFrom txns = some a) :
    (∃ t ∈ txns, t.dateF = a) ∧ ∀ t ∈ txns, a ≤ t.dateF := by
  unfold periodFrom at h
  have hh := (@List.min?_eq_some_iff ℤ a _ _ ⟨fun h1 h2 => le_antisymm h1 h2⟩
    (fun x => le_refl x) (fun x y => min_choice x y)
    (fun _x _y _z => le_min_iff) (txns.map (fun t => t.dateF))).1 h
  rcases hh with ⟨hmem, hle⟩
  constructor
  · rcases List.mem_map.1 hmem with ⟨t, ht, hta⟩
    exact ⟨t, ht, hta⟩
  · intro t ht
    exact hle t.dateF (List.mem_map.2 ⟨t, ht, rfl⟩)

theorem periodTo_spec (txns : List Txn) (b : ℤ) (h : periodTo txns = some b) :
    (∃ t ∈ txns, t.dateF = b) ∧ ∀ t ∈ txns, t.dateF ≤ b := by
  unfold periodTo at h
  have hh := (@List.max?_eq_some_iff ℤ b _ _ ⟨fun h1 h2 => le_antisymm h1 h2⟩
    (fun x => le_refl x) (fun x y => max_choice x y)
    (fun _x _y _z => max_le_iff) (txns.map (fun t => t.dateF))).1 h
  rcases hh with ⟨hmem, hle⟩
  constructor
  · rcases List.mem_map.1 hmem with ⟨t, ht, htb⟩
    exact ⟨t, ht, htb⟩
  · intro t ht
    exact hle t.dateF (List.mem_map.2 ⟨t, ht, rfl⟩)

theorem cumThrough_total (txns : List Txn) (off b : ℤ)
    (hdate : ∀ x ∈ txns, x.dateF = zoneDay x.ts off)
    (hmax : ∀ t ∈ txns, t.dateF ≤ b) :
    cumThrough (txns.map (fun t => TP.mk t.ts t.amount)) off b =
      ((txns.map (fun t => t.amount)).sum) := by
  rw [cumThrough_txns]
  congr 1
  refine congrArg _ (List.filter_eq_self.2 ?_)
  intro t ht
  simp only [decide_eq_true_eq]
  rw [← hdate t ht]
  exact hmax t ht

theorem cumThrough_before (txns : List Txn) (off a : ℤ)
    (hdate : ∀ x ∈ txns, x.dateF = zoneDay x.ts off)
    (hmin : ∀ t ∈ txns, a ≤ t.dateF) :
    cumThrough (txns.map (fun t => TP.mk t.ts t.amount)) off (a - 1) = 0 := by
  rw [cumThrough_txns]
  have hnil : txns.filter (fun t => decide (zoneDay t.ts off ≤ a - 1)) = [] := by
    rw [List.filter_eq_nil]
    intro t ht
    simp only [decide_eq_true_eq]
    rw [← hdate t ht]
    have := hmin t ht
    omega
  rw [hnil]
  rfl

/-- When every transaction's `date` field is the calendar day of its `ts`
in the sweep's zone `off` (as `ymd` produces exactly when the host zone is
the configured zone), the per-day closes are the roundings of the exact
prefix sums through each day's end; the close before the first day is 0;
each daily bucket's net differs from the closes' difference by at most
0.01; and the last close equals the last timeline point's cumulative. -/
theorem daily_close_consistency_host_match (txns : List Txn) (off a b : ℤ)
    (hdate : ∀ x ∈ txns, x.dateF = zoneDay x.ts off)
    (hfo : periodFrom txns = some a) (hto : periodTo txns = some b) :
    attachDailyCumulativeClose a b (txns.map (fun t => TP.mk t.ts t.amount)) off =
      (dayRange a b).map (fun d =>
        { date := d,
          cumulativeClose :=
            round2 (cumThrough (txns.map (fun t => TP.mk t.ts t.amount)) off d) }) ∧
    cumThrough (txns.map (fun t => TP.mk t.ts t.amount)) off (a - 1) = 0 ∧
    (∀ d : ℤ, |(mkBucket txns d).net -
        (round2 (cumThrough (txns.map (fun t => TP.mk t.ts t.amount)) off d) -
         round2 (cumThrough (txns.map (fun t => TP.mk t.ts t.amount)) off (d - 1)))| ≤
      1/100) ∧
    ((attachDailyCumulativeClose a b (txns.map (fun t => TP.mk t.ts t.amount)) off).map
        (fun c => c.cumulativeClose)).getLast? =
      ((buildCumulativeTimeline (txns.map (fun t => TP.mk t.ts t.amount))).map
        (fun p => p.cumulative)).getLast? := by
  have hmin := (periodFrom_spec txns a hfo).2
  have hmax := (periodTo_spec txns b hto).2
  obtain ⟨t0, ht0, ht0a⟩ := (periodFrom_spec txns a hfo).1
  have hab : a ≤ b := ht0a ▸ hmax t0 ht0
  have hne : txns ≠ [] := by
    intro hc
    rw [hc] at ht0
    exact absurd ht0 (List.not_mem_nil t0)
  have hne' : txns.map (fun t => TP.mk t.ts t.amount) ≠ [] := by
    intro hc
    exact hne (List.map_eq_nil.1 hc)
  refine ⟨attachDaily_eq_map a b _ off, cumThrough_before txns off a hdate hmin, ?_, ?_⟩
  · intro d
    have hmk : (mkBucket txns d).net = round2 (dayCredit txns d - dayDebit txns d) := by
      unfold mkBucket
      rw [byDay_char]
    rw [hmk, ← cumThrough_day_diff txns off d hdate]
    exact round2_sub_comm_tol _ _
  · rw [attachDaily_eq_map a b _ off, List.map_map]
    have hcomp : ((fun c : Close => c.cumulativeClose) ∘ (fun d : ℤ =>
        { date := d,
          cumulativeClose :=
            round2 (cumThrough (txns.map (fun t => TP.mk t.ts t.amount)) off d) : Close })) =
        fun d : ℤ =>
          round2 (cumThrough (txns.map (fun t => TP.mk t.ts t.amount)) off d) := rfl
    rw [hcomp, List.getLast?_map, dayRange_getLast? a b hab, timeline_getLast? _ hne']
    simp only [Option.map_some']
    congr 1
    rw [cumThrough_total txns off b hdate hmax, List.map_map]
    rfl

theorem processRow_dateF (fb : String → Option ℤ) (hostOff off : ℤ) (i : ℕ) (r : Row)
    (x : Txn) (h : processRow fb hostOff off i r = some x) :
    x.dateF = zoneDay x.ts hostOff := by
  unfold processRow at h
  cases hb : buildTsISO fb (pick r colsDate) (pick r colsTime) i off with
  | none =>
      rw [hb] at h
      exact absurd h (by simp)
  | some ts =>
      rw [hb] at h
      by_cases hc : jsOr0 (parseKgsNumber (pick r colsDebitIsIncome)) ≤ 0 ∧
          jsOr0 (parseKgsNumber (pick r colsCreditIsExpense)) ≤ 0
      · simp only [if_pos hc] at h
        exact absurd h (by simp)
      · simp only [if_neg hc] at h
        have hx := Option.some_inj.1 h
        rw [← hx]

theorem assemble_dateF (fb : String → Option ℤ) (hostOff off : ℤ) (rows : List Row) :
    ∀ x ∈ assemble fb hostOff off rows, x.dateF = zoneDay x.ts hostOff := by
  intro x hx
  unfold assemble at hx
  rw [assembleGo_eq_filterMap] at hx
  simp only [List.nil_append] at hx
  rcases List.mem_filterMap.1 hx with ⟨p, _, hp⟩
  exact processRow_dateF fb hostOff off p.1 p.2 x hp

/-- The pipeline run with the host zone equal to the configured zone:
every daily bucket's net agrees with the difference of consecutive daily
closes within 0.01 (the close before the first day being 0), the closes
are the roundings of the exact running total through each day's end, and
the last close equals the last timeline point's cumulative. -/
theorem parseStatement_daily_close_consistency (fb : String → Option ℤ) (off : ℤ)
    (rows : List Row) (a b : ℤ)
    (hfo : periodFrom (assemble fb off off rows) = some a)
    (hto : periodTo (assemble fb off off rows) = some b) :
    (∀ d : ℤ, |(mkBucket (assemble fb off off rows) d).net -
        (round2 (cumThrough ((assemble fb off off rows).map
            (fun t => TP.mk t.ts t.amount)) off d) -
         round2 (cumThrough ((assemble fb off off rows).map
            (fun t => TP.mk t.ts t.amount)) off (d - 1)))| ≤ 1/100) ∧
    cumThrough ((assemble fb off off rows).map
      (fun t => TP.mk t.ts t.amount)) off (a - 1) = 0 ∧
    (parseStatement fb off off rows).dailyCum =
      (dayRange a b).map (fun d =>
        { date := d,
          cumulativeClose := round2 (cumThrough ((assemble fb off off rows).map
            (fun t => TP.mk t.ts t.amount)) off d) }) ∧
    ((parseStatement fb off off rows).dailyCum.map (fun c => c.cumulativeClose)).getLast? =
      ((parseStatement fb off off rows).timeline.map (fun p => p.cumulative)).getLast? := by
  have hdate := assemble_dateF fb off off rows
  obtain ⟨hattach, hbefore, hday, hlast⟩ :=
    daily_close_consistency_host_match (assemble fb off off rows) off a b hdate hfo hto
  have hne : assemble fb off off rows ≠ [] := by
    intro hc
    rw [hc] at hfo
    exact absurd hfo (by simp [periodFrom])
  obtain ⟨t, ts, hts⟩ := List.exists_cons_of_ne_nil hne
  have hdc : (parseStatement fb off off rows).dailyCum =
      attachDailyCumulativeClose a b ((assemble fb off off rows).map
        (fun x => TP.mk x.ts x.amount)) off := by
    unfold parseStatement
    rw [hts]
    exact parseOutAux_dailyCum off t ts a b (hts ▸ hfo) (hts ▸ hto)
  have htl : (parseStatement fb off off rows).timeline =
      buildCumulativeTimeline ((assemble fb off off rows).map
        (fun x => TP.mk x.ts x.amount)) := by
    unfold parseStatement
    rw [hts]
    exact parseOutAux_timeline off t ts a b (hts ▸ hfo) (hts ▸ hto)
  refine ⟨hday, hbefore, ?_, ?_⟩
  · rw [hdc]
    exact hattach
  · rw [hdc, htl]
    exact hlast

end XlsConv
